import Mathlib

/-!
Verification development for the datasheet-validator core
(packages/validator-mastermind): the JSON parser / schema inferencer
(parse.ts), the rule validator (validate.ts) and the DataStore state
machine (data-store.ts), shallowly embedded in Lean.

Host facilities of the JavaScript runtime that the source calls
(String.prototype.trim, Number(), JSON.parse, RegExp, Date) are modelled
by explicit executable Lean functions (or explicit parameters where the
behaviour is implementation defined); each such model carries a doc
comment saying what it models.  JavaScript numbers are modelled as exact
rationals (no claim in this development depends on floating point
rounding).  JavaScript objects are modelled as insertion-ordered
association lists, matching the enumeration-order semantics the source
relies on (Object.keys / Object.entries on string-keyed objects).
-/

namespace DV

/-- Models the whitespace class of String.prototype.trim and of the
ToNumber string grammar (common subset: space, tab, LF, CR, VT, FF). -/
def isJsWs (c : Char) : Bool :=
  c = ' ' || c = '\t' || c = '\n' || c = '\r' || c = '\x0b' || c = '\x0c'

def jsTrimList (cs : List Char) : List Char :=
  ((cs.dropWhile isJsWs).reverse.dropWhile isJsWs).reverse

/-- Models String.prototype.trim. -/
def jsTrim (s : String) : String := String.mk (jsTrimList s.data)

def digitVal (c : Char) : Nat := c.toNat - '0'.toNat

def natOfDigits (cs : List Char) : Nat :=
  cs.foldl (fun n c => 10 * n + digitVal c) 0

def hexDigitVal (c : Char) : Option Nat :=
  let n := c.toNat
  if c.isDigit then some (digitVal c)
  else if 97 ≤ n && n ≤ 102 then some (n - 87)
  else if 65 ≤ n && n ≤ 70 then some (n - 55)
  else none

/-- The value space of a JavaScript number: NaN, the two infinities, or a
finite value (modelled as an exact rational). -/
inductive JsNum where
  | nan
  | inf (neg : Bool)
  | fin (q : ℚ)
deriving DecidableEq

def JsNum.isNaN : JsNum → Bool
  | .nan => true
  | _ => false

/-- Decimal literal fragment of the ToNumber string grammar:
digits [. digits] [e|E [sign] digits], needing at least one digit in the
integer or fraction part, fully consumed. -/
def parseDecQ (cs : List Char) : Option ℚ :=
  let p1 := cs.span Char.isDigit
  let p2 : List Char × List Char :=
    match p1.2 with
    | '.' :: rest => rest.span Char.isDigit
    | _ => ([], p1.2)
  if p1.1.isEmpty && p2.1.isEmpty then none
  else
    let mant : ℚ :=
      if p2.1.isEmpty then (natOfDigits p1.1 : ℚ)
      else (natOfDigits p1.1 : ℚ) + (natOfDigits p2.1 : ℚ) / ((10 : ℚ) ^ p2.1.length)
    match p2.2 with
    | [] => some mant
    | e :: rest =>
      if e = 'e' || e = 'E' then
        let sp : Bool × List Char :=
          match rest with
          | '+' :: t => (false, t)
          | '-' :: t => (true, t)
          | t => (false, t)
        let dp := sp.2.span Char.isDigit
        if dp.1.isEmpty || !dp.2.isEmpty then none
        else if sp.1 then some (mant / (10 : ℚ) ^ natOfDigits dp.1)
        else some (mant * (10 : ℚ) ^ natOfDigits dp.1)
      else none

def parseRadixNat (base : Nat) : List Char → Option Nat
  | [] => none
  | [c] => do
    let v ← hexDigitVal c
    if v < base then some v else none
  | c :: rest => do
    let v ← hexDigitVal c
    let r ← parseRadixNat base rest
    -- most significant digit first: fold manually below is avoided by
    -- computing positionally
    if v < base then some (v * base ^ rest.length + r) else none

/-- Models the ECMAScript ToNumber conversion on strings (Number(s)):
whitespace trimming, empty string to 0, signed Infinity, signed decimal
literals, and the 0x / 0o / 0b radix forms (unsigned); everything else is
NaN.  Values are exact rationals. -/
def jsNumberOfString (s : String) : JsNum :=
  let cs := jsTrimList s.data
  if cs.isEmpty then .fin 0
  else
    let dec : List Char → JsNum := fun l =>
      let sp : Bool × List Char :=
        match l with
        | '+' :: t => (false, t)
        | '-' :: t => (true, t)
        | t => (false, t)
      if sp.2 = "Infinity".data then .inf sp.1
      else
        match parseDecQ sp.2 with
        | some q => .fin (if sp.1 then -q else q)
        | none => .nan
    match cs with
    | '0' :: c :: rest =>
      if c = 'x' || c = 'X' then
        match parseRadixNat 16 rest with
        | some n => .fin (n : ℚ)
        | none => .nan
      else if c = 'o' || c = 'O' then
        match parseRadixNat 8 rest with
        | some n => .fin (n : ℚ)
        | none => .nan
      else if c = 'b' || c = 'B' then
        match parseRadixNat 2 rest with
        | some n => .fin (n : ℚ)
        | none => .nan
      else dec cs
    | _ => dec cs

/-- JSON values as produced by JSON.parse; objects keep key insertion
order, matching JavaScript object enumeration order for string keys. -/
inductive Json where
  | null
  | bool (b : Bool)
  | num (q : ℚ)
  | str (s : String)
  | arr (items : List Json)
  | obj (entries : List (String × Json))
deriving Inhabited

def jsonSkipWs (cs : List Char) : List Char :=
  cs.dropWhile fun c => c = ' ' || c = '\t' || c = '\n' || c = '\r'

/-- String body scanner of the JSON grammar (after the opening quote),
supporting the single-character escapes; \\uXXXX escapes are out of the
modelled fragment and make parsing fail. -/
def jsonStrChars : Nat → List Char → Option (List Char × List Char)
  | 0, _ => none
  | _, [] => none
  | fuel + 1, c :: rest =>
    if c = '"' then some ([], rest)
    else if c = '\\' then
      match rest with
      | [] => none
      | e :: rest2 =>
        let dec : Option Char :=
          if e = '"' then some '"'
          else if e = '\\' then some '\\'
          else if e = '/' then some '/'
          else if e = 'n' then some '\n'
          else if e = 't' then some '\t'
          else if e = 'r' then some '\r'
          else if e = 'b' then some '\x08'
          else if e = 'f' then some '\x0c'
          else none
        match dec with
        | some d => (jsonStrChars fuel rest2).map fun p => (d :: p.1, p.2)
        | none => none
    else (jsonStrChars fuel rest).map fun p => (c :: p.1, p.2)

/-- JSON number grammar: -? (0 | [1-9] digits) [. digits+] [e|E sign? digits+]. -/
def jsonNumParse (cs : List Char) : Option (ℚ × List Char) :=
  let sp : Bool × List Char :=
    match cs with
    | '-' :: t => (true, t)
    | t => (false, t)
  let ip := sp.2.span Char.isDigit
  if ip.1.isEmpty then none
  else if ip.1.head? = some '0' && ip.1.length > 1 then none
  else
    let fp : Option (List Char × List Char) :=
      match ip.2 with
      | '.' :: rest =>
        let f := rest.span Char.isDigit
        if f.1.isEmpty then none else some f
      | _ => some ([], ip.2)
    match fp with
    | none => none
    | some f =>
      let mant : ℚ :=
        if f.1.isEmpty then (natOfDigits ip.1 : ℚ)
        else (natOfDigits ip.1 : ℚ) + (natOfDigits f.1 : ℚ) / ((10 : ℚ) ^ f.1.length)
      let signed : ℚ := if sp.1 then -mant else mant
      match f.2 with
      | 'e' :: rest => jsonNumExp signed rest
      | 'E' :: rest => jsonNumExp signed rest
      | rest => some (signed, rest)
where
  jsonNumExp (m : ℚ) (rest : List Char) : Option (ℚ × List Char) :=
    let sp2 : Bool × List Char :=
      match rest with
      | '+' :: t => (false, t)
      | '-' :: t => (true, t)
      | t => (false, t)
    let dp := sp2.2.span Char.isDigit
    if dp.1.isEmpty then none
    else if sp2.1 then some (m / (10 : ℚ) ^ natOfDigits dp.1, dp.2)
    else some (m * (10 : ℚ) ^ natOfDigits dp.1, dp.2)

/-- Duplicate-key normalisation of a JSON object literal: the first
occurrence keeps its position, the last occurrence supplies the value
(JSON.parse semantics).  Structurally recursive on a list-length fuel. -/
def objDedupeF : Nat → List (String × Json) → List (String × Json)
  | 0, _ => []
  | _, [] => []
  | fuel + 1, (k, v) :: rest =>
    let lastV : Json :=
      match (rest.filter (fun p => p.1 = k)).getLast? with
      | some p => p.2
      | none => v
    (k, lastV) :: objDedupeF fuel (rest.filter (fun p => p.1 ≠ k))

def objDedupe (l : List (String × Json)) : List (String × Json) :=
  objDedupeF l.length l

mutual

def jsonVal : Nat → List Char → Option (Json × List Char)
  | 0, _ => none
  | fuel + 1, cs =>
    match cs with
    | [] => none
    | c :: rest =>
      if c = 'n' then
        match rest with
        | 'u' :: 'l' :: 'l' :: r => some (Json.null, r)
        | _ => none
      else if c = 't' then
        match rest with
        | 'r' :: 'u' :: 'e' :: r => some (Json.bool true, r)
        | _ => none
      else if c = 'f' then
        match rest with
        | 'a' :: 'l' :: 's' :: 'e' :: r => some (Json.bool false, r)
        | _ => none
      else if c = '"' then
        (jsonStrChars (fuel + 1) rest).map fun p => (Json.str (String.mk p.1), p.2)
      else if c = '[' then
        match jsonSkipWs rest with
        | ']' :: r => some (Json.arr [], r)
        | r => (jsonArrItems fuel r).map fun p => (Json.arr p.1, p.2)
      else if c = '\x7b' then
        match jsonSkipWs rest with
        | '\x7d' :: r => some (Json.obj [], r)
        | r => (jsonObjItems fuel r).map fun p => (Json.obj (objDedupe p.1), p.2)
      else
        (jsonNumParse cs).map fun p => (Json.num p.1, p.2)

def jsonArrItems : Nat → List Char → Option (List Json × List Char)
  | 0, _ => none
  | fuel + 1, cs =>
    match jsonVal fuel (jsonSkipWs cs) with
    | none => none
    | some (v, r) =>
      match jsonSkipWs r with
      | ',' :: r2 => (jsonArrItems fuel r2).map fun p => (v :: p.1, p.2)
      | ']' :: r2 => some ([v], r2)
      | _ => none

def jsonObjItems : Nat → List Char → Option (List (String × Json) × List Char)
  | 0, _ => none
  | fuel + 1, cs =>
    match jsonSkipWs cs with
    | '"' :: r0 =>
      match jsonStrChars (fuel + 1) r0 with
      | none => none
      | some (kcs, r1) =>
        match jsonSkipWs r1 with
        | ':' :: r2 =>
          match jsonVal fuel (jsonSkipWs r2) with
          | none => none
          | some (v, r3) =>
            match jsonSkipWs r3 with
            | ',' :: r4 =>
              (jsonObjItems fuel r4).map fun p => ((String.mk kcs, v) :: p.1, p.2)
            | '\x7d' :: r4 => some ([(String.mk kcs, v)], r4)
            | _ => none
        | _ => none
    | _ => none

end

/-- Models the host JSON.parse: none on a syntax error, otherwise the
parsed value (supported fragment: the full JSON grammar except \\uXXXX
string escapes). -/
def jsonParse (s : String) : Option Json :=
  match jsonVal (s.length + 2) (jsonSkipWs s.data) with
  | some (j, rest) => if jsonSkipWs rest = [] then some j else none
  | none => none

/-! ### Calendar / Date model -/

def isLeapYear (y : Nat) : Bool :=
  (y % 4 = 0 && y % 100 ≠ 0) || y % 400 = 0

def daysInMonth (y m : Nat) : Nat :=
  if m = 1 || m = 3 || m = 5 || m = 7 || m = 8 || m = 10 || m = 12 then 31
  else if m = 4 || m = 6 || m = 9 || m = 11 then 30
  else if m = 2 then (if isLeapYear y then 29 else 28)
  else 0

def calendarValid (y m d : Nat) : Bool :=
  1 ≤ m && m ≤ 12 && 1 ≤ d && d ≤ daysInMonth y m

def num2 (a b : Char) : Nat := digitVal a * 10 + digitVal b

def num4 (a b c d : Char) : Nat :=
  digitVal a * 1000 + digitVal b * 100 + digitVal c * 10 + digitVal d

def timeValid (h m s : Nat) : Bool :=
  (h ≤ 23 || (h = 24 && m = 0 && s = 0)) && m ≤ 59 && s ≤ 59

def tzSuffixValid : List Char → Bool
  | [] => true
  | ['Z'] => true
  | [sgn, h1, h2, ':', m1, m2] =>
    (sgn = '+' || sgn = '-') && h1.isDigit && h2.isDigit && m1.isDigit && m2.isDigit
      && num2 h1 h2 ≤ 23 && num2 m1 m2 ≤ 59
  | _ => false

def afterSecondsValid (cs : List Char) : Bool :=
  match cs with
  | '.' :: rest =>
    let p := rest.span Char.isDigit
    !p.1.isEmpty && tzSuffixValid p.2
  | rest => tzSuffixValid rest

/-- Models `!isNaN(new Date(s).getTime())` on the date-like shapes the
parser's patterns admit (ISO date, ISO date-time with optional fraction
and offset, MM/DD/YYYY as month/day/year); strings outside these shapes
are outside the modelled fragment and yield false. -/
def jsNewDateValid (s : String) : Bool :=
  match s.data with
  | [y1, y2, y3, y4, '-', m1, m2, '-', d1, d2] =>
    y1.isDigit && y2.isDigit && y3.isDigit && y4.isDigit && m1.isDigit && m2.isDigit
      && d1.isDigit && d2.isDigit
      && calendarValid (num4 y1 y2 y3 y4) (num2 m1 m2) (num2 d1 d2)
  | y1 :: y2 :: y3 :: y4 :: '-' :: mo1 :: mo2 :: '-' :: d1 :: d2 :: 'T'
      :: h1 :: h2 :: ':' :: mi1 :: mi2 :: ':' :: s1 :: s2 :: rest =>
    y1.isDigit && y2.isDigit && y3.isDigit && y4.isDigit && mo1.isDigit && mo2.isDigit
      && d1.isDigit && d2.isDigit && h1.isDigit && h2.isDigit && mi1.isDigit
      && mi2.isDigit && s1.isDigit && s2.isDigit
      && calendarValid (num4 y1 y2 y3 y4) (num2 mo1 mo2) (num2 d1 d2)
      && timeValid (num2 h1 h2) (num2 mi1 mi2) (num2 s1 s2)
      && afterSecondsValid rest
  | [m1, m2, '/', d1, d2, '/', y1, y2, y3, y4] =>
    m1.isDigit && m2.isDigit && d1.isDigit && d2.isDigit && y1.isDigit && y2.isDigit
      && y3.isDigit && y4.isDigit
      && calendarValid (num4 y1 y2 y3 y4) (num2 m1 m2) (num2 d1 d2)
  | _ => false

def matchIsoDate : List Char → Bool
  | [a, b, c, d, s1, e, f, s2, g, i] =>
    a.isDigit && b.isDigit && c.isDigit && d.isDigit && s1 = '-' && e.isDigit
      && f.isDigit && s2 = '-' && g.isDigit && i.isDigit
  | _ => false

def matchIsoDateTimePre : List Char → Bool
  | a :: b :: c :: d :: s1 :: e :: f :: s2 :: g :: i :: t :: h1 :: h2 :: c1
      :: m1 :: m2 :: c2 :: x1 :: x2 :: _ =>
    a.isDigit && b.isDigit && c.isDigit && d.isDigit && s1 = '-' && e.isDigit
      && f.isDigit && s2 = '-' && g.isDigit && i.isDigit && t = 'T' && h1.isDigit
      && h2.isDigit && c1 = ':' && m1.isDigit && m2.isDigit && c2 = ':'
      && x1.isDigit && x2.isDigit
  | _ => false

def matchSlashDate : List Char → Bool
  | [a, b, s1, c, d, s2, e, f, g, i] =>
    a.isDigit && b.isDigit && s1 = '/' && c.isDigit && d.isDigit && s2 = '/'
      && e.isDigit && f.isDigit && g.isDigit && i.isDigit
  | _ => false

/-- The replace of /(\d) ([+-]\d\x7b2\x7d:\d\x7b2\x7d)$/ with "$1$2":
drops a single space between a digit and a trailing timezone offset. -/
def normalizeTzSpace (cs : List Char) : List Char :=
  match cs.reverse with
  | m2 :: m1 :: ':' :: h2 :: h1 :: sgn :: ' ' :: d :: rest =>
    if (sgn = '+' || sgn = '-') && m2.isDigit && m1.isDigit && h2.isDigit
        && h1.isDigit && d.isDigit then
      (m2 :: m1 :: ':' :: h2 :: h1 :: sgn :: d :: rest).reverse
    else cs
  | _ => cs

/-- parse.ts isDateString: one of three date-like patterns, and valid as a
calendar date after normalizing a space before a trailing offset. -/
def isDateString (value : String) : Bool :=
  let cs := value.data
  if matchIsoDate cs || matchIsoDateTimePre cs || matchSlashDate cs then
    jsNewDateValid (String.mk (normalizeTzSpace cs))
  else false

/-! ### Label derivation (parse.ts formatLabel) -/

def isAsciiLower (c : Char) : Bool := 'a' ≤ c && c ≤ 'z'

def isAsciiUpper (c : Char) : Bool := 'A' ≤ c && c ≤ 'Z'

/-- The \w class of the source's /\b\w/g title-casing step. -/
def isWordChar (c : Char) : Bool :=
  isAsciiLower c || isAsciiUpper c || c.isDigit || c = '_'

/-- replace(/([a-z])([A-Z])/g, "$1 $2"): a space between a lowercase
letter and a following uppercase letter. -/
def camelSplit : List Char → List Char
  | [] => []
  | [c] => [c]
  | c1 :: c2 :: rest =>
    if isAsciiLower c1 && isAsciiUpper c2 then c1 :: ' ' :: camelSplit (c2 :: rest)
    else c1 :: camelSplit (c2 :: rest)

def underscoresToSpaces (cs : List Char) : List Char :=
  cs.map fun c => if c = '_' || c = '-' then ' ' else c

/-- replace(/\b\w/g, toUpperCase): uppercase every word character that
does not follow a word character. -/
def titleCaseGo : Bool → List Char → List Char
  | _, [] => []
  | prevWord, c :: rest =>
    (if !prevWord && isWordChar c then c.toUpper else c) :: titleCaseGo (isWordChar c) rest

def formatLabel (key : String) : String :=
  String.mk (titleCaseGo false (underscoresToSpaces (camelSplit key.data)))

/-! ### Data model (types.ts) -/

inductive CellType where
  | string
  | number
  | boolean
  | date
deriving DecidableEq, Inhabited

inductive ValidationRuleType where
  | required
  | min
  | max
  | pattern
  | minLength
  | maxLength
deriving DecidableEq

/-- CellValue = string | number | boolean | null.  JavaScript numbers are
modelled as exact rationals. -/
inductive CellValue where
  | str (s : String)
  | num (q : ℚ)
  | bool (b : Bool)
  | null
deriving DecidableEq

inductive RuleOperand where
  | str (s : String)
  | num (q : ℚ)
deriving DecidableEq

structure ValidationRule where
  type : ValidationRuleType
  value : Option RuleOperand
  message : Option String
deriving DecidableEq

structure ValidationError where
  rule : ValidationRuleType
  message : String
  column : String
deriving DecidableEq

structure Column where
  key : String
  label : String
  type : CellType
  validation : Option (List ValidationRule)
deriving DecidableEq

structure Row where
  id : String
  cells : List (String × CellValue)
  errors : List (String × List ValidationError)
deriving DecidableEq

structure DataSetMetadata where
  fileName : String
  rowCount : Nat
  columnCount : Nat
  importedAt : String
deriving DecidableEq

structure DataSet where
  columns : List Column
  rows : List Row
  metadata : DataSetMetadata
deriving DecidableEq

/-- The error family: a DataValidatorError is a machine-readable code
plus a human message; the ParseError / FileSizeError subclasses are the
corresponding code values. -/
structure DVError where
  code : String
  message : String
deriving DecidableEq

def parseError (msg : String) : DVError := ⟨"PARSE_ERROR", msg⟩

/-- Models Number.prototype.toFixed(2) on a nonnegative rational
(round half up; the source only applies it to byte sizes). -/
def toFixed2 (q : ℚ) : String :=
  let n : ℤ := Int.floor (q * 100 + 1 / 2)
  let whole := n / 100
  let frac := (n % 100).toNat
  toString whole ++ "." ++ (if frac < 10 then "0" ++ toString frac else toString frac)

def fileSizeError (size maxSize : Nat) : DVError :=
  ⟨"FILE_SIZE_ERROR",
    "File size " ++ toFixed2 ((size : ℚ) / 1048576) ++ "MB exceeds maximum allowed size of "
      ++ toFixed2 ((maxSize : ℚ) / 1048576) ++ "MB"⟩

/-- Rendering of a rule operand number into a default message (model of
JS number-to-string for the operands, exact for integers). -/
def jsNumToString (q : ℚ) : String :=
  if q.den = 1 then toString q.num else toString q.num ++ "/" ++ toString q.den

namespace ValidationMessages

def EXPECTED_NUMBER : String := "Expected a number value"

def EXPECTED_BOOLEAN : String := "Expected a boolean value"

def EXPECTED_DATE : String := "Expected a valid date"

def REQUIRED : String := "This field is required"

def MIN (m : ℚ) : String := "Value must be at least " ++ jsNumToString m

def MAX (m : ℚ) : String := "Value must be at most " ++ jsNumToString m

def PATTERN : String := "Value does not match required pattern"

def MIN_LENGTH (m : ℚ) : String :=
  "Value must be at least " ++ jsNumToString m ++ " characters"

def MAX_LENGTH (m : ℚ) : String :=
  "Value must be at most " ++ jsNumToString m ++ " characters"

end ValidationMessages

/-! ### RegExp model -/

/-- Scanner for the well-formedness model: group depth and
character-class state, consuming escapes pairwise. -/
def regexScan : List Char → Nat → Bool → Bool
  | [], depth, inClass => depth = 0 && !inClass
  | '\\' :: rest, depth, inClass =>
    match rest with
    | [] => false
    | _ :: r => regexScan r depth inClass
  | '[' :: r, depth, _inClass => regexScan r depth true
  | ']' :: r, depth, _inClass => regexScan r depth false
  | '(' :: r, depth, inClass =>
    if inClass then regexScan r depth inClass else regexScan r (depth + 1) inClass
  | ')' :: r, depth, inClass =>
    if inClass then regexScan r depth inClass
    else match depth with
      | 0 => false
      | d + 1 => regexScan r d inClass
  | _ :: r, depth, inClass => regexScan r depth inClass

/-- Models the ECMAScript early-error check of `new RegExp(p)`
(the fragment relevant here: unbalanced groups or classes and dangling
escapes are syntax errors; a balanced pattern is accepted). -/
def jsRegexWellFormed (p : String) : Bool :=
  regexScan p.data 0 false

/-- A JavaScript exception that is not a DataValidatorError: the
SyntaxError thrown by the RegExp constructor on a malformed pattern. -/
inductive JsError where
  | regexSyntax (pattern : String)
deriving DecidableEq

def jsErrorMessage : JsError → String
  | .regexSyntax p => "Invalid regular expression: " ++ p

/-- The host facilities whose behaviour the validator consumes but whose
exact values no theorem here depends on: `!isNaN(new Date(s).getTime())`
on an arbitrary string, and `new RegExp(p).test(s)` for a well-formed p.
All theorems quantify over this structure. -/
structure JsHost where
  dateValid : String → Bool
  regexTest : String → String → Bool

/-! ### Association-list object model -/

def alGet {κ α : Type} [DecidableEq κ] (l : List (κ × α)) (k : κ) : Option α :=
  (l.find? fun p => p.1 = k).map fun p => p.2

/-- JavaScript property assignment o[k] = v: an existing key keeps its
position and receives the new value, a new key is appended. -/
def alSet {κ α : Type} [DecidableEq κ] (l : List (κ × α)) (k : κ) (v : α) : List (κ × α) :=
  if l.any (fun p => p.1 = k) then l.map (fun p => if p.1 = k then (k, v) else p)
  else l ++ [(k, v)]

def alDelete {κ α : Type} [DecidableEq κ] (l : List (κ × α)) (k : κ) : List (κ × α) :=
  l.filter fun p => p.1 ≠ k

def alKeys {κ α : Type} (l : List (κ × α)) : List κ := l.map fun p => p.1

/-! ### Rule validator (validate.ts) -/

def validateType (value : CellValue) (type : CellType) (columnKey : String)
    (h : JsHost) : List ValidationError :=
  if value = .null then []
  else
    match type with
    | .number =>
      match value with
      | .num _ => []
      | .str s =>
        if !(jsNumberOfString s).isNaN && jsTrim s ≠ "" then []
        else [⟨.required, ValidationMessages.EXPECTED_NUMBER, columnKey⟩]
      | _ => [⟨.required, ValidationMessages.EXPECTED_NUMBER, columnKey⟩]
    | .boolean =>
      match value with
      | .bool _ => []
      | .str s =>
        if ["true", "false", "yes", "no", "1", "0"].contains (String.map Char.toLower s) then []
        else [⟨.required, ValidationMessages.EXPECTED_BOOLEAN, columnKey⟩]
      | _ => [⟨.required, ValidationMessages.EXPECTED_BOOLEAN, columnKey⟩]
    | .date =>
      match value with
      | .str s =>
        if h.dateValid s then []
        else [⟨.required, ValidationMessages.EXPECTED_DATE, columnKey⟩]
      | _ => [⟨.required, ValidationMessages.EXPECTED_DATE, columnKey⟩]
    | .string => []

def validateRule (value : CellValue) (rule : ValidationRule) (columnKey : String)
    (h : JsHost) : Except JsError (Option ValidationError) :=
  match rule.type with
  | .required =>
    if value = .null || value = .str "" then
      .ok (some ⟨.required, rule.message.getD ValidationMessages.REQUIRED, columnKey⟩)
    else .ok none
  | .min =>
    match value, rule.value with
    | .num v, some (.num m) =>
      if v < m then .ok (some ⟨.min, rule.message.getD (ValidationMessages.MIN m), columnKey⟩)
      else .ok none
    | _, _ => .ok none
  | .max =>
    match value, rule.value with
    | .num v, some (.num m) =>
      if v > m then .ok (some ⟨.max, rule.message.getD (ValidationMessages.MAX m), columnKey⟩)
      else .ok none
    | _, _ => .ok none
  | .pattern =>
    match value, rule.value with
    | .str s, some (.str p) =>
      if jsRegexWellFormed p then
        if h.regexTest p s then .ok none
        else .ok (some ⟨.pattern, rule.message.getD ValidationMessages.PATTERN, columnKey⟩)
      else .error (.regexSyntax p)
    | _, _ => .ok none
  | .minLength =>
    match value, rule.value with
    | .str s, some (.num m) =>
      if (s.length : ℚ) < m then
        .ok (some ⟨.minLength, rule.message.getD (ValidationMessages.MIN_LENGTH m), columnKey⟩)
      else .ok none
    | _, _ => .ok none
  | .maxLength =>
    match value, rule.value with
    | .str s, some (.num m) =>
      if (s.length : ℚ) > m then
        .ok (some ⟨.maxLength, rule.message.getD (ValidationMessages.MAX_LENGTH m), columnKey⟩)
      else .ok none
    | _, _ => .ok none

def validateRulesList (value : CellValue) (rules : List ValidationRule)
    (columnKey : String) (h : JsHost) : Except JsError (List ValidationError) :=
  match rules with
  | [] => .ok []
  | r :: rest => do
    let e ← validateRule value r columnKey h
    let es ← validateRulesList value rest columnKey h
    match e with
    | some err => .ok (err :: es)
    | none => .ok es

def validateCell (value : CellValue) (column : Column) (h : JsHost) :
    Except JsError (List ValidationError) := do
  let ruleErrors ← validateRulesList value (column.validation.getD []) column.key h
  .ok (validateType value column.type column.key h ++ ruleErrors)

def validateRow (row : Row) (columns : List Column) (h : JsHost) :
    Except JsError (List (String × List ValidationError)) :=
  match columns with
  | [] => .ok []
  | c :: rest => do
    let value := (alGet row.cells c.key).getD .null
    let cellErrors ← validateCell value c h
    let restErrors ← validateRow row rest h
    if cellErrors.length > 0 then .ok ((c.key, cellErrors) :: restErrors)
    else .ok restErrors

def validateAllRows (rows : List Row) (columns : List Column) (h : JsHost) :
    Except JsError (List Row) :=
  match rows with
  | [] => .ok []
  | r :: rest => do
    let errors ← validateRow r columns h
    let rest2 ← validateAllRows rest columns h
    .ok ({ r with errors := errors } :: rest2)

/-! ### Schema inference and parsing (parse.ts) -/

def detectValueType (value : Json) : CellType :=
  match value with
  | .bool _ => .boolean
  | .num _ => .number
  | .str s => if isDateString s then .date else .string
  | _ => .string

/-- typeCounts[t] = (typeCounts[t] ?? 0) + 1 over every record's non-null
value at the key; the association list keeps first-seen insertion order,
as Object.entries does. -/
def countsOf (records : List (List (String × Json))) (key : String) :
    List (CellType × Nat) :=
  records.foldl
    (fun counts record =>
      match alGet record key with
      | none => counts
      | some Json.null => counts
      | some v =>
        let t := detectValueType v
        alSet counts t ((alGet counts t).getD 0 + 1))
    []

/-- The final fold of inferColumnType: strict improvement over the running
best, starting from (string, 0). -/
def selectType : List (CellType × Nat) → CellType → Nat → CellType
  | [], best, _ => best
  | (t, c) :: rest, best, bestCount =>
    if c > bestCount then selectType rest t c else selectType rest best bestCount

def inferColumnType (records : List (List (String × Json))) (key : String) : CellType :=
  selectType (countsOf records key) .string 0

def jsonEscapeChar (c : Char) : List Char :=
  if c = '"' then ['\\', '"']
  else if c = '\\' then ['\\', '\\']
  else if c = '\n' then ['\\', 'n']
  else if c = '\t' then ['\\', 't']
  else if c = '\r' then ['\\', 'r']
  else [c]

def jsonEscape (s : String) : String :=
  String.mk (s.data.flatMap jsonEscapeChar)

mutual

/-- Models JSON.stringify on a parsed value (used when a nested object is
flattened to a string cell). -/
def jsonStringify : Json → String
  | .null => "null"
  | .bool true => "true"
  | .bool false => "false"
  | .num q => jsNumToString q
  | .str s => "\"" ++ jsonEscape s ++ "\""
  | .arr items => "[" ++ String.intercalate "," (jsonStringifyList items) ++ "]"
  | .obj entries => "\x7b" ++ String.intercalate "," (jsonStringifyObjList entries) ++ "\x7d"

def jsonStringifyList : List Json → List String
  | [] => []
  | j :: rest => jsonStringify j :: jsonStringifyList rest

def jsonStringifyObjList : List (String × Json) → List String
  | [] => []
  | (k, v) :: rest =>
    ("\"" ++ jsonEscape k ++ "\":" ++ jsonStringify v) :: jsonStringifyObjList rest

end

def coerceValue (value : Option Json) : CellValue :=
  match value with
  | none => .null
  | some .null => .null
  | some (.str s) => .str s
  | some (.num q) => .num q
  | some (.bool b) => .bool b
  | some j => .str (jsonStringify j)

def buildCells (record : List (String × Json)) (columns : List Column) :
    List (String × CellValue) :=
  columns.map fun c => (c.key, coerceValue (alGet record c.key))

def depthErrorMsg (recordIndex : Nat) (key : String) (maxDepth : Nat) : String :=
  "Unsupported structure: deeply nested object at record " ++ toString recordIndex
    ++ ", key \"" ++ key ++ "\". Maximum nesting depth is " ++ toString maxDepth

def arrayErrorMsg (recordIndex : Nat) (key : String) : String :=
  "Unsupported structure: array value at record " ++ toString recordIndex
    ++ ", key \"" ++ key ++ "\". Only flat objects are supported"

/-- The per-entry check of validateNesting: the plain-object depth check
(with recursion into the object, rec) first, then the array check, both
sequenced before whatever follows. -/
def nestingStep (recordIndex maxDepth currentDepth : Nat)
    (rec : List (String × Json) → Except DVError Unit)
    (key : String) (value : Json) : Except DVError Unit :=
  Except.bind
    (match value with
     | Json.obj entries =>
       if currentDepth ≥ maxDepth then
         Except.error (parseError (depthErrorMsg recordIndex key maxDepth))
       else rec entries
     | _ => Except.ok ())
    (fun _ =>
      match value with
      | Json.arr _ => Except.error (parseError (arrayErrorMsg recordIndex key))
      | _ => Except.ok ())

/-- The loop of validateNesting over an entry list, structurally
recursive on the remaining depth budget (gas = maxDepth - currentDepth;
recursion into a plain object only happens when currentDepth < maxDepth,
so the budget is positive there and the gas-0 fallback is unreachable
through the wrapper below).  A first error is kept and short-circuits
all later effects, exactly as the source's throw does. -/
def vnGo (recordIndex maxDepth : Nat) :
    Nat → Nat → List (String × Json) → Except DVError Unit
  | gas, currentDepth, l =>
    l.foldl
      (fun acc p =>
        Except.bind acc fun _ =>
          nestingStep recordIndex maxDepth currentDepth
            (fun entries =>
              match gas with
              | 0 => Except.ok ()
              | g + 1 => vnGo recordIndex maxDepth g (currentDepth + 1) entries)
            p.1 p.2)
      (Except.ok ())

/-- parse.ts validateNesting: walk the record's entries in order; a plain
object is depth-checked (and recursed into) before the same entry's array
check, and both precede the remaining entries. -/
def validateNesting (recordIndex maxDepth currentDepth : Nat)
    (obj : List (String × Json)) : Except DVError Unit :=
  vnGo recordIndex maxDepth (maxDepth - currentDepth) currentDepth obj

def invalidRecordMsg (i : Nat) : String :=
  "Invalid record at index " ++ toString i ++ ": expected a flat object"

/-- The per-record loop of parse: shape check then nesting check, record
by record in order. -/
def checkRecords (maxDepth : Nat) : Nat → List Json → Except DVError Unit
  | _, [] => .ok ()
  | i, r :: rest =>
    match r with
    | .obj entries => do
      validateNesting i maxDepth 0 entries
      checkRecords maxDepth (i + 1) rest
    | _ => .error (parseError (invalidRecordMsg i))

/-- The `records[0] as Record<string, unknown>` cast (checkRecords has
already established every record is a plain object). -/
def asObj : Json → List (String × Json)
  | .obj o => o
  | _ => []

structure ParseOptions where
  maxFileSize : Nat
  maxNestingDepth : Nat
  fileName : String
deriving DecidableEq

def defaultParseOptions : ParseOptions := ⟨5242880, 1, "unknown"⟩

/-- generateRowId: "row-" + index + "-" + counter + "-" + timestamp.
The process-wide counter is modelled by the rowSeed argument (its value
before the call), the Date.now().toString(36) part by the idTs argument. -/
def generateRowId (index rowSeed : Nat) (idTs : String) : String :=
  "row-" ++ toString index ++ "-" ++ toString (rowSeed + index + 1) ++ "-" ++ idTs

/-- parse.ts parse.  rowSeed and idTs feed the row-id generator and
nowIso models new Date().toISOString() for the metadata timestamp. -/
def parse (input : String) (opts : ParseOptions) (rowSeed : Nat)
    (idTs nowIso : String) : Except DVError DataSet :=
  let byteSize := input.utf8ByteSize
  if byteSize > opts.maxFileSize then .error (fileSizeError byteSize opts.maxFileSize)
  else if (jsTrim input).length = 0 then .error (parseError "File is empty")
  else
    match jsonParse input with
    | none => .error (parseError "Invalid JSON: file could not be parsed")
    | some (.arr records) =>
      if records.length = 0 then
        .error (parseError "Empty dataset: the JSON array contains no records")
      else do
        checkRecords opts.maxNestingDepth 0 records
        let firstRecord := asObj (records.headD .null)
        let columnKeys := alKeys firstRecord
        if columnKeys.length = 0 then
          Except.error (parseError "No columns found: the first record has no keys")
        else
          let recObjs := records.map asObj
          let columns := columnKeys.map fun key =>
            Column.mk key (formatLabel key) (inferColumnType recObjs key) none
          let rows := recObjs.enum.map fun p =>
            Row.mk (generateRowId p.1 rowSeed idTs) (buildCells p.2 columns) []
          Except.ok ⟨columns, rows, ⟨opts.fileName, rows.length, columns.length, nowIso⟩⟩
    | some _ =>
      .error (parseError "Unsupported structure: expected a JSON array of objects")

/-! ### DataStore (data-store.ts)

Subscription model: every setState call runs notify, which invokes each
currently registered subscriber exactly once.  Each operation below
therefore returns, alongside the store, the number of setState calls it
performed: a subscriber registered for the whole call is invoked exactly
that many times during the call.  Operations whose body can propagate a
JavaScript exception to the caller (the ones without a try/catch) return
the resulting store paired with `Except JsError Nat`, where `error`
means the call raised and no further setState happened. -/

structure StoreOptions where
  maxFileSize : Nat
  maxNestingDepth : Nat
  validationRules : List (String × List ValidationRule)
deriving DecidableEq

def defaultStoreOptions : StoreOptions := ⟨5242880, 1, []⟩

inductive DataStoreState where
  | idle
  | loading
  | loaded (data : DataSet)
  | error (e : DVError)
deriving DecidableEq

structure Store where
  state : DataStoreState
  options : StoreOptions
deriving DecidableEq

/-- new DataStore(options). -/
def dataStoreNew (options : StoreOptions) : Store := ⟨.idle, options⟩

def applyValidationRules (stored : List (String × List ValidationRule))
    (columns : List Column) : List Column :=
  columns.map fun column =>
    match alGet stored column.key with
    | none => column
    | some rules => { column with validation := some (column.validation.getD [] ++ rules) }

/-- loadFromString: setState(loading), then parse / merge rules /
validate inside a try whose catch turns any failure into the error state
(DataValidatorErrors kept, anything else wrapped as UNKNOWN_ERROR), then
one more setState with the outcome.  Total setState calls: always 2. -/
def loadFromString (h : JsHost) (s : Store) (jsonString fileName : String)
    (rowSeed : Nat) (idTs nowIso : String) : Store × Nat :=
  match parse jsonString ⟨s.options.maxFileSize, s.options.maxNestingDepth, fileName⟩
      rowSeed idTs nowIso with
  | .error e => ({ s with state := .error e }, 2)
  | .ok dataSet =>
    let columnsWithRules := applyValidationRules s.options.validationRules dataSet.columns
    match validateAllRows dataSet.rows columnsWithRules h with
    | .error je =>
      ({ s with state := .error ⟨"UNKNOWN_ERROR", jsErrorMessage je⟩ }, 2)
    | .ok validatedRows =>
      ({ s with state := .loaded ⟨columnsWithRules, validatedRows, dataSet.metadata⟩ }, 2)

/-- A File object: byte length, name, content, and whether file.text()
resolves (readOk = false models a read failure). -/
structure FileM where
  name : String
  size : Nat
  text : String
  readOk : Bool

def loadFromFile (h : JsHost) (s : Store) (file : FileM) (rowSeed : Nat)
    (idTs nowIso : String) : Store × Nat :=
  if file.size > s.options.maxFileSize then
    ({ s with state := .error (fileSizeError file.size s.options.maxFileSize) }, 2)
  else if file.readOk then
    let r := loadFromString h s file.text file.name rowSeed idTs nowIso
    (r.1, 1 + r.2)
  else ({ s with state := .error ⟨"FILE_READ_ERROR", "Failed to read file"⟩ }, 2)

structure CellEdit where
  rowId : String
  columnKey : String
  value : CellValue
deriving DecidableEq

def updateCell (h : JsHost) (s : Store) (rowId columnKey : String)
    (value : CellValue) : Store × Except JsError Nat :=
  match s.state with
  | .loaded data =>
    match data.rows.findIdx? (fun r => r.id == rowId) with
    | none => (s, .ok 0)
    | some rowIndex =>
      match data.columns.find? (fun c => c.key == columnKey) with
      | none => (s, .ok 0)
      | some column =>
        let row := data.rows.getD rowIndex ⟨"", [], []⟩
        let newCells := alSet row.cells columnKey value
        match validateCell value column h with
        | .error je => (s, .error je)
        | .ok cellErrors =>
          let newErrors :=
            if cellErrors.length > 0 then alSet row.errors columnKey cellErrors
            else alDelete row.errors columnKey
          let newRow : Row := { row with cells := newCells, errors := newErrors }
          let newRows := data.rows.set rowIndex newRow
          ({ s with state := .loaded { data with rows := newRows } }, .ok 1)
  | _ => (s, .ok 0)

/-- The edit loop of batchUpdateCells over the single working copy of the
rows array (later edits to a row see earlier edits' effects). -/
def batchApplyEdits (h : JsHost) (columns : List Column)
    (idxMap : List (String × Nat)) :
    List CellEdit → List Row → Except JsError (List Row)
  | [], newRows => .ok newRows
  | edit :: rest, newRows =>
    match alGet idxMap edit.rowId with
    | none => batchApplyEdits h columns idxMap rest newRows
    | some rowIndex =>
      match columns.find? (fun c => c.key == edit.columnKey) with
      | none => batchApplyEdits h columns idxMap rest newRows
      | some column =>
        let row := newRows.getD rowIndex ⟨"", [], []⟩
        let newCells := alSet row.cells edit.columnKey edit.value
        match validateCell edit.value column h with
        | .error je => .error je
        | .ok cellErrors =>
          let newErrors :=
            if cellErrors.length > 0 then alSet row.errors edit.columnKey cellErrors
            else alDelete row.errors edit.columnKey
          batchApplyEdits h columns idxMap rest
            (newRows.set rowIndex { row with cells := newCells, errors := newErrors })

def batchUpdateCells (h : JsHost) (s : Store) (edits : List CellEdit) :
    Store × Except JsError Nat :=
  match s.state with
  | .loaded data =>
    let idxMap := data.rows.enum.foldl (fun m p => alSet m p.2.id p.1) []
    match batchApplyEdits h data.columns idxMap edits data.rows with
    | .error je => (s, .error je)
    | .ok newRows => ({ s with state := .loaded { data with rows := newRows } }, .ok 1)
  | _ => (s, .ok 0)

/-- addValidationRules: the store-level rule map is extended first (this
mutation persists even if re-validation then raises); with a loaded
DataSet the columns are re-derived via applyValidationRules on the
current (already rule-carrying) columns and all rows re-validated. -/
def addValidationRules (h : JsHost) (s : Store) (columnKey : String)
    (rules : List ValidationRule) : Store × Except JsError Nat :=
  let newStored := alSet s.options.validationRules columnKey
    ((alGet s.options.validationRules columnKey).getD [] ++ rules)
  let s1 : Store := { s with options := { s.options with validationRules := newStored } }
  match s1.state with
  | .loaded data =>
    let columnsWithRules := applyValidationRules newStored data.columns
    match validateAllRows data.rows columnsWithRules h with
    | .error je => (s1, .error je)
    | .ok validatedRows =>
      ({ s1 with state := .loaded ⟨columnsWithRules, validatedRows, data.metadata⟩ }, .ok 1)
  | _ => (s1, .ok 0)

def reset (s : Store) : Store × Nat := ({ s with state := .idle }, 1)

/-! ### Allocation-instrumented updateCell (for reference identity)

Object identity is modelled by tagging each heap object the claim speaks
about (the columns array, the rows array, each row object, the metadata
object) with an address.  A monotone counter supplies fresh addresses;
every object the source allocates in updateCell (the new row object and
the new rows array) takes a fresh address, and every reference the
source copies unchanged keeps its address. -/

structure ADataSet where
  columnsAddr : Nat
  columns : List Column
  rowsAddr : Nat
  rows : List (Nat × Row)
  metaAddr : Nat
  metadata : DataSetMetadata
deriving DecidableEq

def allocAddrs (data : ADataSet) : List Nat :=
  data.columnsAddr :: data.rowsAddr :: data.metaAddr :: data.rows.map fun r => r.1

/-- Every live address is below the allocation counter. -/
def allocWF (data : ADataSet) (next : Nat) : Prop :=
  ∀ a ∈ allocAddrs data, a < next

/-- updateCell on a loaded DataSet, with allocation instrumented; none
models the no-op paths (unknown row or column). -/
def updateCellAlloc (h : JsHost) (data : ADataSet) (next : Nat)
    (rowId columnKey : String) (value : CellValue) :
    Option (Except JsError (ADataSet × Nat)) :=
  match data.rows.findIdx? (fun r => r.2.id == rowId) with
  | none => none
  | some rowIndex =>
    match data.columns.find? (fun c => c.key == columnKey) with
    | none => none
    | some column =>
      let row := data.rows.getD rowIndex (0, ⟨"", [], []⟩)
      let newCells := alSet row.2.cells columnKey value
      match validateCell value column h with
      | .error je => some (.error je)
      | .ok cellErrors =>
        let newErrors :=
          if cellErrors.length > 0 then alSet row.2.errors columnKey cellErrors
          else alDelete row.2.errors columnKey
        let newRow : Nat × Row := (next, { row.2 with cells := newCells, errors := newErrors })
        let newRows := data.rows.set rowIndex newRow
        some (.ok ({ data with rowsAddr := next + 1, rows := newRows }, next + 2))

/-! ### Spec-words definitions used to compare against the source -/

/-- The classifications of a column's non-null values in record order. -/
def detectedSeq (records : List (List (String × Json))) (key : String) : List CellType :=
  records.filterMap fun record =>
    match alGet record key with
    | none => none
    | some Json.null => none
    | some v => some (detectValueType v)

def listMaxCount (counts : List (CellType × Nat)) : Nat :=
  counts.foldr (fun p m => max p.2 m) 0

def firstToReachGo (counts : List (CellType × Nat)) (target : Nat) :
    List CellType → Option CellType
  | [] => none
  | t :: rest =>
    let counts2 := alSet counts t ((alGet counts t).getD 0 + 1)
    if (alGet counts2 t).getD 0 = target then some t
    else firstToReachGo counts2 target rest

/-- Written from the claim's words: the classification that is first to
have its running occurrence count reach the leading (maximal final)
count, scanning the column's non-null values in record order; string
when there are none. -/
def firstToReachLeading (records : List (List (String × Json))) (key : String) : CellType :=
  (firstToReachGo [] (listMaxCount (countsOf records key)) (detectedSeq records key)).getD .string

/-- Written from the claim's words (the amended tie-break): the first
entry, in first-seen order, among the per-classification counts that
attains the leading count; string when there are none. -/
def firstSeenLeading (records : List (List (String × Json))) (key : String) : CellType :=
  let counts := countsOf records key
  (((counts.find? fun p => 0 < p.2 && p.2 = listMaxCount counts).map fun p => p.1).getD .string)

/-- The fold of listMaxCount generalized over its base value. -/
def listMaxFrom (l : List (CellType × Nat)) (b : Nat) : Nat :=
  l.foldr (fun p m => max p.2 m) b

/-! ### Safety of configured rules (for the exception claims)

A rule can make re-validation raise only through the RegExp constructor:
a pattern rule whose string operand is not well formed. -/

def ruleSafe (r : ValidationRule) : Bool :=
  match r.type, r.value with
  | .pattern, some (.str p) => jsRegexWellFormed p
  | _, _ => true

def rulesSafe (rs : List ValidationRule) : Bool := rs.all ruleSafe

def columnsSafe (cols : List Column) : Bool :=
  cols.all fun c => rulesSafe (c.validation.getD [])

def storedSafe (st : List (String × List ValidationRule)) : Bool :=
  st.all fun p => rulesSafe p.2

/-- The row/column invariant: every row's cell key list is exactly the
columns' key list. -/
def cellsMatchColumns (ds : DataSet) : Prop :=
  ∀ r ∈ ds.rows, alKeys r.cells = ds.columns.map Column.key

/-! ### Concrete instances used by witnesses and counterexamples -/

/-- A concrete host instantiation (no theorem depends on its values). -/
def hW : JsHost := ⟨fun _ => false, fun _ _ => true⟩

def minRule : ValidationRule := ⟨.min, some (.num 0), none⟩

def maxRule : ValidationRule := ⟨.max, some (.num 100), none⟩

def patternBadRule : ValidationRule := ⟨.pattern, some (.str "("), none⟩

def jsonSimple : String := "[\x7b\"age\":1\x7d]"

def jsonName : String := "[\x7b\"name\":\"x\"\x7d]"

def jsonC4 : String := "[\x7b\"a\":\x7b\"b\":\x7b\"c\":1\x7d\x7d,\"d\":[1]\x7d]"

def recsC6 : List (List (String × Json)) :=
  [[("v", Json.bool true)], [("v", Json.num 1)], [("v", Json.num 2)],
   [("v", Json.bool false)], [("v", Json.num 3)], [("v", Json.bool true)]]

def jsonC6 : String :=
  "[\x7b\"v\":true\x7d,\x7b\"v\":1\x7d,\x7b\"v\":2\x7d,\x7b\"v\":false\x7d,\x7b\"v\":3\x7d,\x7b\"v\":true\x7d]"

def storeC1 : Store := dataStoreNew ⟨5242880, 1, [("age", [minRule])]⟩

def loadedC1 : Store := (loadFromString hW storeC1 jsonSimple "f" 0 "t" "now").1

def loadedC3 : Store :=
  (loadFromString hW (dataStoreNew defaultStoreOptions) jsonName "f" 0 "t" "now").1

def cDflt : Column := ⟨"", "", .string, none⟩

def rowDflt : Row := ⟨"", [], []⟩

def firstColValidation (s : Store) : List ValidationRule :=
  match s.state with
  | .loaded d => (d.columns.headD cDflt).validation.getD []
  | _ => []

def errCode : Except DVError DataSet → Option String
  | .error e => some e.code
  | .ok _ => none

def firstColType : Except DVError DataSet → CellType
  | .ok ds => (ds.columns.headD cDflt).type
  | _ => .string

def colW : Column := ⟨"age", "Age", .number, some [minRule]⟩

def rowW : Row := ⟨"r0", [("age", CellValue.num 1)], []⟩

def metaW : DataSetMetadata := ⟨"w.json", 1, 1, "now"⟩

def dsW : DataSet := ⟨[colW], [rowW], metaW⟩

def sW : Store := ⟨.loaded dsW, defaultStoreOptions⟩

def aDataW : ADataSet := ⟨10, [colW], 11, [(20, rowW)], 12, metaW⟩

def aUpdW : ADataSet :=
  match updateCellAlloc hW aDataW 21 "r0" "age" (CellValue.num 5) with
  | some (Except.ok p) => p.1
  | _ => aDataW

def dsP : DataSet :=
  match parse jsonSimple defaultParseOptions 0 "t" "now" with
  | .ok ds => ds
  | .error _ => ⟨[], [], ⟨"", 0, 0, ""⟩⟩

def newStoredRules (s : Store) (key : String) (rules : List ValidationRule) :
    List (String × List ValidationRule) :=
  alSet s.options.validationRules key
    ((alGet s.options.validationRules key).getD [] ++ rules)

/-! ## Theorems -/

/-- C1 counterexample: on a store whose age column already carries the
store-level min rule (reached by loading with that rule configured),
addValidationRules("age", [max]) appends the full updated stored rule
list to the column's existing list: the rebuilt validation list is
[min, min, max], duplicating the min rule, and is not the store's
current rule list [min, max] — contradicting the claimed rebuild. -/
theorem C1_counterexample :
    (∃ d, loadedC1.state = DataStoreState.loaded d) ∧
    (addValidationRules hW loadedC1 "age" [maxRule]).1.options.validationRules
      = [("age", [minRule, maxRule])] ∧
    firstColValidation (addValidationRules hW loadedC1 "age" [maxRule]).1
      = [minRule, minRule, maxRule] ∧
    [minRule, minRule, maxRule] ≠ [minRule, maxRule] :=
  ⟨⟨_, rfl⟩, rfl, rfl, by decide⟩

/-- C2 counterexample: a successful loadFromString performs two setState
calls (loading, then loaded), so every subscriber registered at call time
is notified twice during the call, not exactly once. -/
theorem C2_counterexample :
    (loadFromString hW (dataStoreNew defaultStoreOptions) jsonSimple "f" 0 "t" "now").2 = 2 ∧
    (∃ d, (loadFromString hW (dataStoreNew defaultStoreOptions) jsonSimple "f" 0 "t" "now").1.state
      = DataStoreState.loaded d) ∧
    (2 : Nat) ≠ 1 :=
  ⟨rfl, ⟨_, rfl⟩, by decide⟩

/-- C3 counterexample: on a loaded store, addValidationRules with a
pattern rule whose operand "(" is not a well-formed regular expression
raises the RegExp syntax error to its caller instead of recording
validation data. -/
theorem C3_counterexample :
    (∃ d, loadedC3.state = DataStoreState.loaded d) ∧
    (addValidationRules hW loadedC3 "name" [patternBadRule]).2
      = Except.error (JsError.regexSyntax "(") :=
  ⟨⟨_, rfl⟩, rfl⟩

/-- C4 counterexample: a record containing both an array-valued field
("d") and a plain object nested past maxNestingDepth (key "b") makes
parse fail with the depth-exceeded failure, not the claimed
unsupported-structure (array) failure. -/
theorem C4_counterexample :
    parse jsonC4 defaultParseOptions 0 "t" "now"
      = Except.error (parseError (depthErrorMsg 0 "b" 1)) ∧
    parseError (depthErrorMsg 0 "b" 1) ≠ parseError (arrayErrorMsg 0 "d") :=
  ⟨rfl, by decide⟩

/-- C5 counterexample: the non-null string "Infinity" does not parse to a
finite number (Number("Infinity") is Infinity), yet validateCell's type
conformance for a number column accepts it (the source checks isNaN, not
finiteness). -/
theorem C5_counterexample :
    validateType (CellValue.str "Infinity") CellType.number "k" hW = [] ∧
    jsNumberOfString "Infinity" = JsNum.inf false ∧
    CellValue.str "Infinity" ≠ CellValue.null :=
  ⟨rfl, rfl, by decide⟩

/-- C6 counterexample: for the value sequence boolean, number, number,
boolean, number, boolean the two classifications tie at the leading count
3; number is the first to reach that count (at the fifth value), but the
inferred type is boolean, the first-seen classification. -/
theorem C6_counterexample :
    inferColumnType recsC6 "v" = CellType.boolean ∧
    firstToReachLeading recsC6 "v" = CellType.number ∧
    CellType.boolean ≠ CellType.number ∧
    alGet (countsOf recsC6 "v") CellType.boolean = some 3 ∧
    alGet (countsOf recsC6 "v") CellType.number = some 3 ∧
    firstColType (parse jsonC6 defaultParseOptions 0 "t" "now") = CellType.boolean :=
  ⟨rfl, rfl, by decide, rfl, rfl, rfl⟩

/-- C7 counterexample: the empty-input failure and the
wrong-top-level-shape failure carry the same machine-readable kind code
PARSE_ERROR, so the kinds are not distinct. -/
theorem C7_counterexample :
    errCode (parse "" defaultParseOptions 0 "t" "now") = some "PARSE_ERROR" ∧
    errCode (parse "\x7b\x7d" defaultParseOptions 0 "t" "now") = some "PARSE_ERROR" :=
  ⟨rfl, rfl⟩

/-- C7 amended: parse(""), parse("\x7bnot json"), parse("\x7b\x7d") and
parse("[]") all fail with the single machine-readable code PARSE_ERROR;
the four failure classes are distinguished by their (pairwise distinct)
human-readable messages, not by distinct kind codes. -/
theorem C7_amended :
    parse "" defaultParseOptions 0 "t" "now" =
      Except.error ⟨"PARSE_ERROR", "File is empty"⟩ ∧
    parse "\x7bnot json" defaultParseOptions 0 "t" "now" =
      Except.error ⟨"PARSE_ERROR", "Invalid JSON: file could not be parsed"⟩ ∧
    parse "\x7b\x7d" defaultParseOptions 0 "t" "now" =
      Except.error ⟨"PARSE_ERROR", "Unsupported structure: expected a JSON array of objects"⟩ ∧
    parse "[]" defaultParseOptions 0 "t" "now" =
      Except.error ⟨"PARSE_ERROR", "Empty dataset: the JSON array contains no records"⟩ ∧
    ("File is empty" ≠ "Invalid JSON: file could not be parsed" ∧
     "File is empty" ≠ "Unsupported structure: expected a JSON array of objects" ∧
     "File is empty" ≠ "Empty dataset: the JSON array contains no records" ∧
     "Invalid JSON: file could not be parsed" ≠ "Unsupported structure: expected a JSON array of objects" ∧
     "Invalid JSON: file could not be parsed" ≠ "Empty dataset: the JSON array contains no records" ∧
     "Unsupported structure: expected a JSON array of objects" ≠ "Empty dataset: the JSON array contains no records") :=
  ⟨rfl, rfl, rfl, rfl, by decide⟩


@[simp]
theorem exceptBind_ok {E A B : Type} (g : A → Except E B) (x : A) :
    (Except.ok x : Except E A) >>= g = g x := rfl

@[simp]
theorem exceptBind_error {E A B : Type} (g : A → Except E B) (e : E) :
    (Except.error e : Except E A) >>= g = Except.error e := rfl

/-- C10: every ValidationError produced by type conformance (for number,
boolean and date columns alike) carries the rule kind 'required', the
same kind tag a failed required rule carries, so the two are
distinguishable only by message, never by rule kind. -/
theorem C10_theorem :
    (∀ v t k h e, e ∈ validateType v t k h → e.rule = ValidationRuleType.required) ∧
    (∀ v val msg k h e,
      validateRule v ⟨ValidationRuleType.required, val, msg⟩ k h = .ok (some e) →
      e.rule = ValidationRuleType.required) := by
  constructor
  · intro v t k h e he
    cases t <;> cases v <;> simp only [validateType] at he <;>
      simp_all
  · intro v val msg k h e hr
    simp only [validateRule] at hr
    split at hr
    · cases hr
      rfl
    · cases hr

/-- C10 witness: the theorem applied to the concrete number-type error. -/
theorem C10_witness :
    (⟨ValidationRuleType.required, ValidationMessages.EXPECTED_NUMBER, "k"⟩ : ValidationError)
      ∈ validateType (CellValue.str "x") CellType.number "k" hW ∧
    (⟨ValidationRuleType.required, ValidationMessages.EXPECTED_NUMBER, "k"⟩ : ValidationError).rule
      = ValidationRuleType.required :=
  ⟨by decide, C10_theorem.1 (CellValue.str "x") CellType.number "k" hW _ (by decide)⟩

/-- C5 amended: a non-null value passes number type conformance iff it
is a number, or a non-blank string whose Number() conversion is not NaN
— finiteness is not required, so infinite-valued strings pass. -/
theorem C5_amended (h : JsHost) (v : CellValue) (k : String) (hv : v ≠ CellValue.null) :
    validateType v CellType.number k h = [] ↔
      ((∃ q, v = CellValue.num q) ∨
       (∃ s, v = CellValue.str s ∧ jsTrim s ≠ "" ∧ (jsNumberOfString s).isNaN = false)) := by
  cases v with
  | null => exact absurd rfl hv
  | num q => simp [validateType]
  | bool b => simp [validateType]
  | str s =>
    simp only [validateType]
    constructor
    · intro hempty
      right
      refine ⟨s, rfl, ?_⟩
      by_cases h1 : (!(jsNumberOfString s).isNaN && decide (jsTrim s ≠ "")) = true
      · simp only [Bool.and_eq_true, Bool.not_eq_true', decide_eq_true_eq] at h1
        exact ⟨h1.2, h1.1⟩
      · simp [h1] at hempty
        exact ⟨hempty.2, hempty.1⟩
    · rintro (⟨q, hq⟩ | ⟨s2, hs2, htrim, hnan⟩)
      · cases hq
      · cases hs2
        simp [hnan, htrim]

/-- C5 witness: the amended equivalence applied at a numeric value. -/
theorem C5_witness :
    (CellValue.num 5 ≠ CellValue.null) ∧
    validateType (CellValue.num 5) CellType.number "k" hW = [] :=
  ⟨by decide, (C5_amended hW (CellValue.num 5) "k" (by decide)).mpr (Or.inl ⟨5, rfl⟩)⟩

/-- C2 amended: updateCell, batchUpdateCells, addValidationRules and
reset perform at most one setState per call (exactly one when they
replace the state), so each subscriber is notified exactly once per
state-changing call; loadFromString always performs exactly two
setStates per call and loadFromFile two or three, so each subscriber is
notified more than once during a load call. -/
theorem C2_amended :
    (∀ h s input name seed ts now,
      (loadFromString h s input name seed ts now).2 = 2) ∧
    (∀ h s f seed ts now,
      (loadFromFile h s f seed ts now).2 = 2 ∨ (loadFromFile h s f seed ts now).2 = 3) ∧
    (∀ h s rid k v n, (updateCell h s rid k v).2 = Except.ok n → n = 0 ∨ n = 1) ∧
    (∀ h s rid k v, (updateCell h s rid k v).2 = Except.ok 0 → (updateCell h s rid k v).1 = s) ∧
    (∀ h s edits n, (batchUpdateCells h s edits).2 = Except.ok n → n = 0 ∨ n = 1) ∧
    (∀ h s key rules n data, s.state = DataStoreState.loaded data →
      (addValidationRules h s key rules).2 = Except.ok n → n = 1) ∧
    (∀ s, (reset s).2 = 1) := by
  have hls : ∀ h s input name seed ts now,
      (loadFromString h s input name seed ts now).2 = 2 := by
    intro h s input name seed ts now
    unfold loadFromString
    split
    · rfl
    · dsimp only
      split <;> rfl
  refine ⟨hls, ?_, ?_, ?_, ?_, ?_, ?_⟩
  · intro h s f seed ts now
    unfold loadFromFile
    split
    · left; rfl
    · split
      · right
        simp [hls]
      · left; rfl
  · intro h s rid k v n hok
    unfold updateCell at hok
    split at hok
    · split at hok
      · cases hok; left; rfl
      · split at hok
        · cases hok; left; rfl
        · split at hok
          · cases hok
          · cases hok; right; rfl
    · cases hok; left; rfl
  · intro h s rid k v hok
    unfold updateCell at hok ⊢
    split at hok
    · split at hok
      · rfl
      · split at hok
        · rfl
        · split at hok
          · cases hok
          · cases hok
    · rfl
  · intro h s edits n hok
    unfold batchUpdateCells at hok
    split at hok
    · dsimp only at hok
      split at hok
      · cases hok
      · cases hok; right; rfl
    · cases hok; left; rfl
  · intro h s key rules n data hst hok
    unfold addValidationRules at hok
    dsimp only at hok
    split at hok
    · split at hok
      · cases hok
      · cases hok; rfl
    · rename_i hne
      rw [hst] at hne
      simp at hne
  · intro s
    rfl

/-- C2 witness: a concrete loaded store on which addValidationRules
performs exactly one setState, instantiating the amended theorem. -/
theorem C2_witness :
    sW.state = DataStoreState.loaded dsW ∧
    (addValidationRules hW sW "age" [maxRule]).2 = Except.ok 1 ∧ (1 : Nat) = 1 :=
  ⟨rfl, rfl, C2_amended.2.2.2.2.2.1 hW sW "age" [maxRule] 1 dsW rfl rfl⟩

theorem validateRule_ok_of_safe (h : JsHost) (v : CellValue) (r : ValidationRule)
    (k : String) (hs : ruleSafe r = true) :
    ∃ o, validateRule v r k h = Except.ok o := by
  rcases r with ⟨rt, rv, rm⟩
  cases rt
  case required =>
    unfold validateRule
    dsimp only
    split <;> exact ⟨_, rfl⟩
  case min =>
    unfold validateRule
    dsimp only
    split
    · split <;> exact ⟨_, rfl⟩
    · exact ⟨_, rfl⟩
  case max =>
    unfold validateRule
    dsimp only
    split
    · split <;> exact ⟨_, rfl⟩
    · exact ⟨_, rfl⟩
  case pattern =>
    unfold ruleSafe at hs
    unfold validateRule
    dsimp only at hs ⊢
    cases v <;> rcases rv with _ | op
    case str.none => exact ⟨_, rfl⟩
    case str.some =>
      cases op
      case str p =>
        simp only at hs
        simp only [hs, if_true]
        split <;> exact ⟨_, rfl⟩
      case num => exact ⟨_, rfl⟩
    all_goals exact ⟨_, rfl⟩
  case minLength =>
    unfold validateRule
    dsimp only
    split
    · split <;> exact ⟨_, rfl⟩
    · exact ⟨_, rfl⟩
  case maxLength =>
    unfold validateRule
    dsimp only
    split
    · split <;> exact ⟨_, rfl⟩
    · exact ⟨_, rfl⟩

theorem validateRulesList_ok_of_safe (h : JsHost) (v : CellValue)
    (rs : List ValidationRule) (k : String) (hs : rulesSafe rs = true) :
    ∃ es, validateRulesList v rs k h = Except.ok es := by
  induction rs with
  | nil => exact ⟨[], rfl⟩
  | cons r rest ih =>
    simp only [rulesSafe, List.all_cons, Bool.and_eq_true] at hs
    obtain ⟨o, ho⟩ := validateRule_ok_of_safe h v r k hs.1
    obtain ⟨es, hes⟩ := ih hs.2
    cases o with
    | none => exact ⟨es, by simp [validateRulesList, ho, hes]⟩
    | some err => exact ⟨err :: es, by simp [validateRulesList, ho, hes]⟩

theorem validateCell_ok_of_safe (h : JsHost) (v : CellValue) (c : Column)
    (hs : rulesSafe (c.validation.getD []) = true) :
    ∃ es, validateCell v c h = Except.ok es := by
  obtain ⟨es, hes⟩ := validateRulesList_ok_of_safe h v (c.validation.getD []) c.key hs
  exact ⟨validateType v c.type c.key h ++ es, by simp [validateCell, hes]⟩

theorem columnsSafe_mem {cols : List Column} {c : Column}
    (hs : columnsSafe cols = true) (hc : c ∈ cols) :
    rulesSafe (c.validation.getD []) = true := by
  simp only [columnsSafe, List.all_eq_true] at hs
  exact hs c hc

theorem validateRow_ok_of_safe (h : JsHost) (row : Row) (cols : List Column)
    (hs : columnsSafe cols = true) :
    ∃ m, validateRow row cols h = Except.ok m := by
  induction cols with
  | nil => exact ⟨[], rfl⟩
  | cons c rest ih =>
    have hc : rulesSafe (c.validation.getD []) = true :=
      columnsSafe_mem hs (by simp)
    have ht : columnsSafe rest = true := by
      simp only [columnsSafe, List.all_cons, Bool.and_eq_true] at hs
      exact hs.2
    obtain ⟨es, hes⟩ := validateCell_ok_of_safe h ((alGet row.cells c.key).getD .null) c hc
    obtain ⟨m, hm⟩ := ih ht
    by_cases hlen : es.length > 0
    · exact ⟨(c.key, es) :: m, by simp [validateRow, hes, hm, hlen]⟩
    · exact ⟨m, by simp [validateRow, hes, hm, hlen]⟩

theorem validateAllRows_ok_of_safe (h : JsHost) (rows : List Row) (cols : List Column)
    (hs : columnsSafe cols = true) :
    ∃ rows2, validateAllRows rows cols h = Except.ok rows2 := by
  induction rows with
  | nil => exact ⟨[], rfl⟩
  | cons r rest ih =>
    obtain ⟨m, hm⟩ := validateRow_ok_of_safe h r cols hs
    obtain ⟨rs2, hrs2⟩ := ih
    exact ⟨{ r with errors := m } :: rs2, by simp [validateAllRows, hm, hrs2]⟩



theorem rulesSafe_append {a b : List ValidationRule}
    (ha : rulesSafe a = true) (hb : rulesSafe b = true) :
    rulesSafe (a ++ b) = true := by
  simp only [rulesSafe, List.all_eq_true] at *
  intro r hr
  rcases List.mem_append.mp hr with h1 | h2
  · exact ha r h1
  · exact hb r h2

theorem storedSafe_get {st : List (String × List ValidationRule)} {k : String}
    (hs : storedSafe st = true) :
    rulesSafe ((alGet st k).getD []) = true := by
  unfold alGet
  cases hf : st.find? (fun p => p.1 = k) with
  | none => rfl
  | some p =>
    have hmem := List.mem_of_find?_eq_some hf
    simp only [storedSafe, List.all_eq_true] at hs
    simpa using hs p hmem

theorem storedSafe_alSet {st : List (String × List ValidationRule)} {k : String}
    {rs : List ValidationRule} (hs : storedSafe st = true) (hrs : rulesSafe rs = true) :
    storedSafe (alSet st k rs) = true := by
  simp only [storedSafe, List.all_eq_true] at *
  intro p hp
  simp only [alSet] at hp
  split at hp
  · rcases List.mem_map.mp hp with ⟨q, hq, hqe⟩
    by_cases hqk : q.1 = k
    · rw [if_pos hqk] at hqe
      cases hqe
      exact hrs
    · rw [if_neg hqk] at hqe
      cases hqe
      exact hs _ hq
  · rcases List.mem_append.mp hp with h1 | h2
    · exact hs p h1
    · simp at h2
      cases h2
      exact hrs

theorem columnsSafe_applyValidationRules {st : List (String × List ValidationRule)}
    {cols : List Column} (hc : columnsSafe cols = true) (hst : storedSafe st = true) :
    columnsSafe (applyValidationRules st cols) = true := by
  simp only [columnsSafe, List.all_eq_true] at *
  intro c hc2
  simp only [applyValidationRules] at hc2
  rcases List.mem_map.mp hc2 with ⟨c0, hc0, hce⟩
  cases halg : alGet st c0.key with
  | none =>
    rw [halg] at hce
    cases hce
    exact hc c0 hc0
  | some rs =>
    rw [halg] at hce
    cases hce
    simp only [Option.getD_some]
    refine rulesSafe_append (hc c0 hc0) ?_
    have hthis : rulesSafe ((alGet st c0.key).getD []) = true := storedSafe_get hst
    rwa [halg, Option.getD_some] at hthis

theorem batchApplyEdits_ok_of_safe (h : JsHost) (columns : List Column)
    (idxMap : List (String × Nat)) (edits : List CellEdit)
    (hc : columnsSafe columns = true) :
    ∀ rows, ∃ rows2, batchApplyEdits h columns idxMap edits rows = Except.ok rows2 := by
  induction edits with
  | nil => exact fun rows => ⟨rows, rfl⟩
  | cons e rest ih =>
    intro rows
    unfold batchApplyEdits
    dsimp only
    split
    · exact ih rows
    · split
      · exact ih rows
      · rename_i idx _ column hcol
        have hsafe : rulesSafe (column.validation.getD []) = true :=
          columnsSafe_mem hc (List.mem_of_find?_eq_some hcol)
        obtain ⟨es, hes⟩ := validateCell_ok_of_safe h e.value column hsafe
        rw [hes]
        exact ih _

/-- C3 amended: the three editing operations can raise only through the
RegExp constructor inside pattern-rule evaluation.  When every pattern
operand in play is a well-formed regular expression they never raise;
an ill-formed operand, however, propagates the RegExp syntax error to
the caller (C3_counterexample), so the claim's parenthetical case fails. -/
theorem C3_amended :
    (∀ h s rid k v data, s.state = DataStoreState.loaded data →
      columnsSafe data.columns = true →
      ∃ n, (updateCell h s rid k v).2 = Except.ok n) ∧
    (∀ h s edits data, s.state = DataStoreState.loaded data →
      columnsSafe data.columns = true →
      ∃ n, (batchUpdateCells h s edits).2 = Except.ok n) ∧
    (∀ h s key rules data, s.state = DataStoreState.loaded data →
      columnsSafe data.columns = true →
      storedSafe s.options.validationRules = true →
      rulesSafe rules = true →
      ∃ n, (addValidationRules h s key rules).2 = Except.ok n) := by
  refine ⟨?_, ?_, ?_⟩
  · intro h s rid k v data hst hc
    unfold updateCell
    rw [hst]
    dsimp only
    split
    · exact ⟨0, rfl⟩
    · split
      · exact ⟨0, rfl⟩
      · rename_i idx _ column hcol
        have hsafe : rulesSafe (column.validation.getD []) = true :=
          columnsSafe_mem hc (List.mem_of_find?_eq_some hcol)
        obtain ⟨es, hes⟩ := validateCell_ok_of_safe h v column hsafe
        rw [hes]
        exact ⟨1, rfl⟩
  · intro h s edits data hst hc
    unfold batchUpdateCells
    rw [hst]
    dsimp only
    obtain ⟨rows2, hrows2⟩ :=
      batchApplyEdits_ok_of_safe h data.columns
        (List.foldl (fun m p => alSet m p.2.id p.1) [] data.rows.enum) edits hc data.rows
    rw [hrows2]
    exact ⟨1, rfl⟩
  · intro h s key rules data hst hc hstored hrules
    unfold addValidationRules
    dsimp only
    rw [hst]
    dsimp only
    have hstored2 : storedSafe (alSet s.options.validationRules key
        ((alGet s.options.validationRules key).getD [] ++ rules)) = true :=
      storedSafe_alSet hstored (rulesSafe_append (storedSafe_get hstored) hrules)
    obtain ⟨rows2, hrows2⟩ := validateAllRows_ok_of_safe h data.rows _
      (columnsSafe_applyValidationRules hc hstored2)
    rw [hrows2]
    exact ⟨1, rfl⟩

/-- C3 witness: on a concrete loaded store whose single column carries a
safe min rule, updateCell returns without raising. -/
theorem C3_witness :
    sW.state = DataStoreState.loaded dsW ∧ columnsSafe dsW.columns = true ∧
    (∃ n, (updateCell hW sW "r0" "age" (CellValue.num 5)).2 = Except.ok n) :=
  ⟨rfl, by decide, C3_amended.1 hW sW "r0" "age" (CellValue.num 5) dsW rfl (by decide)⟩

@[simp]
theorem listMaxFrom_nil (b : Nat) : listMaxFrom [] b = b := rfl

@[simp]
theorem listMaxFrom_cons (q : CellType × Nat) (t : List (CellType × Nat)) (b : Nat) :
    listMaxFrom (q :: t) b = max q.2 (listMaxFrom t b) := rfl

theorem listMaxFrom_ge_base (l : List (CellType × Nat)) (b : Nat) : b ≤ listMaxFrom l b := by
  induction l with
  | nil => simp
  | cons p t ih => simp; omega

theorem le_listMaxFrom_of_mem {l : List (CellType × Nat)} {p : CellType × Nat}
    (hp : p ∈ l) (b : Nat) : p.2 ≤ listMaxFrom l b := by
  induction l with
  | nil => cases hp
  | cons q t ih =>
    rw [listMaxFrom_cons]
    rcases List.mem_cons.mp hp with h1 | h2
    · subst h1; exact le_max_left _ _
    · exact le_trans (ih h2) (le_max_right _ _)

theorem listMaxFrom_eq_max (l : List (CellType × Nat)) (b : Nat) :
    listMaxFrom l b = max b (listMaxFrom l 0) := by
  induction l generalizing b with
  | nil => simp
  | cons q t ih =>
    rw [listMaxFrom_cons, listMaxFrom_cons, ih b, ih 0]
    omega

theorem exists_mem_eq_listMaxFrom (l : List (CellType × Nat)) (b : Nat)
    (h : b < listMaxFrom l b) : ∃ p ∈ l, p.2 = listMaxFrom l b := by
  induction l generalizing b with
  | nil => simp at h
  | cons q t ih =>
    rw [listMaxFrom_cons] at h ⊢
    rcases le_or_lt (listMaxFrom t b) q.2 with hq | hq
    · exact ⟨q, List.mem_cons_self q t, by omega⟩
    · obtain ⟨p, hp, hpe⟩ := ih b (by omega)
      exact ⟨p, List.mem_cons_of_mem q hp, by omega⟩

theorem List_find?_ext {α : Type} {p q : α → Bool} {l : List α}
    (h : ∀ x ∈ l, p x = q x) : l.find? p = l.find? q := by
  induction l with
  | nil => rfl
  | cons a t ih =>
    have ha := h a (List.mem_cons_self a t)
    rw [List.find?_cons, List.find?_cons, ha,
      ih fun x hx => h x (List.mem_cons_of_mem a hx)]

theorem selectType_eq_find (l : List (CellType × Nat)) (best : CellType) (bc : Nat) :
    selectType l best bc =
      (((l.find? fun p => bc < p.2 && p.2 = listMaxFrom l bc).map fun p => p.1).getD best) := by
  induction l generalizing best bc with
  | nil => rfl
  | cons hd t ih =>
    obtain ⟨ty, c⟩ := hd
    by_cases hbc : bc < c
    · by_cases hcM : listMaxFrom t bc ≤ c
      · have hfind : (List.find? (fun p => bc < p.2 && p.2 = listMaxFrom ((ty, c) :: t) bc)
            ((ty, c) :: t)) = some (ty, c) := by
          apply List.find?_cons_of_pos
          simp only [listMaxFrom_cons, Bool.and_eq_true, decide_eq_true_eq]
          exact ⟨hbc, by omega⟩
        rw [hfind]
        simp only [selectType, if_pos (show c > bc from hbc), Option.map_some, Option.getD_some]
        rw [ih ty c]
        have hnone : (t.find? fun p => c < p.2 && p.2 = listMaxFrom t c) = none := by
          rw [List.find?_eq_none]
          intro p hp
          simp only [Bool.and_eq_true, decide_eq_true_eq, not_and]
          intro hlt
          have := le_listMaxFrom_of_mem hp bc
          omega
        rw [hnone]
        rfl
      · push_neg at hcM
        have hM : listMaxFrom ((ty, c) :: t) bc = listMaxFrom t bc := by
          rw [listMaxFrom_cons]; omega
        have h1 : listMaxFrom t c = listMaxFrom t bc := by
          have h2 := hcM
          rw [listMaxFrom_eq_max t bc] at h2
          rw [listMaxFrom_eq_max t c, listMaxFrom_eq_max t bc]
          omega
        have hfind : (List.find? (fun p => bc < p.2 && p.2 = listMaxFrom ((ty, c) :: t) bc)
            ((ty, c) :: t)) = (List.find? (fun p => bc < p.2 && p.2 = listMaxFrom ((ty, c) :: t) bc) t) := by
          apply List.find?_cons_of_neg
          simp only [Bool.and_eq_true, decide_eq_true_eq, not_and]
          intro _ hEq
          rw [hM] at hEq
          omega
        rw [hfind]
        simp only [selectType, if_pos (show c > bc from hbc)]
        rw [ih ty c]
        have hpred : ∀ p ∈ t,
            (decide (bc < p.2) && decide (p.2 = listMaxFrom ((ty, c) :: t) bc))
              = (decide (c < p.2) && decide (p.2 = listMaxFrom t c)) := by
          intro p _
          rw [hM, h1]
          by_cases hp2 : p.2 = listMaxFrom t bc
          · have e1 : bc < listMaxFrom t bc := by omega
            simp [hp2, e1, hcM]
          · simp [hp2]
        rw [List_find?_ext hpred]
        obtain ⟨p0, hp0, hp0e⟩ := exists_mem_eq_listMaxFrom t bc (by omega)
        have hsome : (t.find? fun p => c < p.2 && p.2 = listMaxFrom t c).isSome :=
          List.find?_isSome.mpr ⟨p0, hp0, by
            rw [h1]
            simp only [Bool.and_eq_true, decide_eq_true_eq]
            exact ⟨by omega, hp0e⟩⟩
        obtain ⟨q0, hq0⟩ := Option.isSome_iff_exists.mp hsome
        rw [hq0]
        rfl
    · have hM : listMaxFrom ((ty, c) :: t) bc = listMaxFrom t bc := by
        have := listMaxFrom_ge_base t bc
        rw [listMaxFrom_cons]
        omega
      have hfind : (List.find? (fun p => bc < p.2 && p.2 = listMaxFrom ((ty, c) :: t) bc)
          ((ty, c) :: t)) = (List.find? (fun p => bc < p.2 && p.2 = listMaxFrom ((ty, c) :: t) bc) t) := by
        apply List.find?_cons_of_neg
        simp only [Bool.and_eq_true, decide_eq_true_eq, not_and]
        intro hlt
        omega
      rw [hfind]
      simp only [selectType, if_neg (show ¬ c > bc from hbc)]
      rw [ih best bc, hM]

/-- C6 amended: the inferred column type is the classification with the
strictly greatest occurrence count; on a tie it is the one whose first
occurrence comes first in record order (first-seen precedence over the
insertion-ordered count table), and string when no non-null value exists
— not the classification that is first to reach the leading count. -/
theorem C6_amended (records : List (List (String × Json))) (key : String) :
    inferColumnType records key = firstSeenLeading records key := by
  unfold inferColumnType firstSeenLeading
  rw [selectType_eq_find]
  rfl

theorem foldlBind_error {ε α : Type} (g : α → Except ε Unit) (l : List α) (e : ε) :
    l.foldl (fun acc p => Except.bind acc fun _ => g p) (Except.error e) = Except.error e := by
  induction l with
  | nil => rfl
  | cons a t ih => simpa using ih

theorem vnGo_eq_foldl (i maxD gas d : Nat) (l : List (String × Json)) :
    vnGo i maxD gas d l =
      l.foldl
        (fun acc p =>
          Except.bind acc fun _ =>
            nestingStep i maxD d
              (fun entries =>
                match gas with
                | 0 => Except.ok ()
                | g + 1 => vnGo i maxD g (d + 1) entries)
              p.1 p.2)
        (Except.ok ()) := by
  rw [vnGo]

/-- C4 amended: the array check and the depth check are interleaved per
entry in traversal order, not staged: after a violation-free prefix, an
array-valued entry raises the unsupported-structure (array) failure even
if deeper entries follow, and a plain-object entry at depth at or past
the limit raises the depth-exceeded failure even if an array-valued
entry follows — whichever offending entry comes first in traversal order
wins (so an earlier depth violation preempts a later array value, contra
the claimed fixed ordering; see the counterexample). -/
theorem C4_amended (i maxD d : Nat) (pre rest : List (String × Json)) (k : String)
    (xs : List Json) (o : List (String × Json)) :
    (validateNesting i maxD d pre = Except.ok () →
      validateNesting i maxD d (pre ++ (k, Json.arr xs) :: rest)
        = Except.error (parseError (arrayErrorMsg i k))) ∧
    (validateNesting i maxD d pre = Except.ok () → maxD ≤ d →
      validateNesting i maxD d (pre ++ (k, Json.obj o) :: rest)
        = Except.error (parseError (depthErrorMsg i k maxD))) := by
  constructor
  · intro hpre
    unfold validateNesting at hpre ⊢
    rw [vnGo_eq_foldl] at hpre ⊢
    rw [List.foldl_append, hpre]
    rw [List.foldl_cons]
    have hstep : (Except.bind (Except.ok ()) fun _ =>
        nestingStep i maxD d
          (fun entries =>
            match maxD - d with
            | 0 => Except.ok ()
            | g + 1 => vnGo i maxD g (d + 1) entries)
          (k, Json.arr xs).1 (k, Json.arr xs).2)
        = Except.error (parseError (arrayErrorMsg i k)) := by
      simp [nestingStep, Except.bind]
    rw [hstep, foldlBind_error]
  · intro hpre hd
    unfold validateNesting at hpre ⊢
    rw [vnGo_eq_foldl] at hpre ⊢
    rw [List.foldl_append, hpre]
    rw [List.foldl_cons]
    have hstep : (Except.bind (Except.ok ()) fun _ =>
        nestingStep i maxD d
          (fun entries =>
            match maxD - d with
            | 0 => Except.ok ()
            | g + 1 => vnGo i maxD g (d + 1) entries)
          (k, Json.obj o).1 (k, Json.obj o).2)
        = Except.error (parseError (depthErrorMsg i k maxD)) := by
      simp only [nestingStep]
      rw [if_pos (show d ≥ maxD from hd)]
      rfl
    rw [hstep, foldlBind_error]

/-- C4 witness: instantiation of the amended order theorem — with a
violation-free prefix entry, an array value at the next key raises the
array failure, and at depth 1 with limit 1 a plain-object entry raises
the depth failure. -/
theorem C4_witness :
    validateNesting 0 1 0 [("x", Json.num 1)] = Except.ok () ∧
    validateNesting 0 1 0 [("x", Json.num 1), ("d", Json.arr [Json.num 1])]
      = Except.error (parseError (arrayErrorMsg 0 "d")) ∧
    validateNesting 0 1 1 [("x", Json.num 1), ("b", Json.obj [("c", Json.num 1)])]
      = Except.error (parseError (depthErrorMsg 0 "b" 1)) :=
  ⟨rfl,
   (C4_amended 0 1 0 [("x", Json.num 1)] [] "d" [Json.num 1] []).1 rfl,
   (C4_amended 0 1 1 [("x", Json.num 1)] [] "b" [] [("c", Json.num 1)]).2 rfl (by decide)⟩

theorem alGet_nil {κ α : Type} [DecidableEq κ] (k : κ) : alGet ([] : List (κ × α)) k = none := rfl

theorem alGet_cons {κ α : Type} [DecidableEq κ] (p : κ × α) (t : List (κ × α)) (k : κ) :
    alGet (p :: t) k = if p.1 = k then some p.2 else alGet t k := by
  unfold alGet
  rw [List.find?_cons]
  by_cases hp : p.1 = k
  · simp [hp]
  · simp [hp]

theorem alGet_mapSet_ne {κ α : Type} [DecidableEq κ] (t : List (κ × α)) (k k2 : κ) (v : α)
    (h : k2 ≠ k) :
    alGet (t.map fun p => if p.1 = k then (k, v) else p) k2 = alGet t k2 := by
  induction t with
  | nil => rfl
  | cons q t2 ih =>
    rw [List.map_cons, alGet_cons, alGet_cons]
    by_cases hq : q.1 = k
    · rw [if_pos hq]
      have h1 : ¬((k, v).1 = k2) := fun he => h he.symm
      have h2 : ¬(q.1 = k2) := by rw [hq]; exact h1
      rw [if_neg h1, ih, if_neg h2]
    · rw [if_neg hq]
      by_cases hq2 : q.1 = k2
      · rw [if_pos hq2, if_pos hq2]
      · rw [if_neg hq2, if_neg hq2, ih]

theorem alGet_mapSet_self {κ α : Type} [DecidableEq κ] (t : List (κ × α)) (k : κ) (v : α)
    (h : t.any (fun p => p.1 = k) = true) :
    alGet (t.map fun p => if p.1 = k then (k, v) else p) k = some v := by
  induction t with
  | nil => simp at h
  | cons q t2 ih =>
    rw [List.map_cons]
    by_cases hq : q.1 = k
    · rw [if_pos hq, alGet_cons]
      simp
    · rw [if_neg hq, alGet_cons, if_neg hq]
      apply ih
      simp only [List.any_cons, Bool.or_eq_true, decide_eq_true_eq] at h
      rcases h with h1 | h1
      · exact absurd h1 hq
      · exact h1

theorem alGet_append_single {κ α : Type} [DecidableEq κ] (t : List (κ × α)) (k k2 : κ) (v : α) :
    alGet (t ++ [(k, v)]) k2 =
      match alGet t k2 with
      | some w => some w
      | none => if k = k2 then some v else none := by
  induction t with
  | nil =>
    rw [List.nil_append, alGet_cons, alGet_nil]
  | cons q t2 ih =>
    rw [List.cons_append, alGet_cons, alGet_cons]
    by_cases hq : q.1 = k2
    · rw [if_pos hq, if_pos hq]
    · rw [if_neg hq, if_neg hq, ih]

theorem any_eq_false_alGet {κ α : Type} [DecidableEq κ] (t : List (κ × α)) (k : κ)
    (h : t.any (fun p => p.1 = k) = false) : alGet t k = none := by
  induction t with
  | nil => rfl
  | cons q t2 ih =>
    simp only [List.any_cons, Bool.or_eq_false_iff, decide_eq_false_iff_not] at h
    rw [alGet_cons, if_neg h.1]
    exact ih (by simpa using h.2)

theorem alGet_alSet {κ α : Type} [DecidableEq κ] (l : List (κ × α)) (k k2 : κ) (v : α) :
    alGet (alSet l k v) k2 = if k2 = k then some v else alGet l k2 := by
  unfold alSet
  by_cases hany : l.any (fun p => p.1 = k) = true
  · rw [if_pos hany]
    by_cases hk : k2 = k
    · rw [if_pos hk, hk, alGet_mapSet_self l k v hany]
    · rw [if_neg hk, alGet_mapSet_ne l k k2 v hk]
  · rw [if_neg hany, alGet_append_single]
    have hfalse : l.any (fun p => p.1 = k) = false := by
      cases hv : l.any (fun p => p.1 = k)
      · rfl
      · exact absurd hv hany
    have hnone := any_eq_false_alGet l k hfalse
    by_cases hk : k2 = k
    · rw [if_pos hk, hk, hnone]
      simp
    · rw [if_neg hk]
      cases hg : alGet l k2 with
      | some w => rfl
      | none =>
        simp only
        rw [if_neg (fun he => hk he.symm)]

theorem applyValidationRules_getD (st : List (String × List ValidationRule))
    (cols : List Column) (i : Nat) (hi : i < cols.length) :
    (applyValidationRules st cols).getD i cDflt =
      (match alGet st ((cols.getD i cDflt).key) with
       | none => cols.getD i cDflt
       | some rs => { cols.getD i cDflt with
           validation := some ((cols.getD i cDflt).validation.getD [] ++ rs) }) := by
  unfold applyValidationRules
  rw [List.getD_eq_getElem?_getD, List.getElem?_map, List.getElem?_eq_getElem hi]
  rw [List.getD_eq_getElem?_getD, List.getElem?_eq_getElem hi]
  rfl

/-- C1 amended: addValidationRules appends the given rules to the store's
per-key rule set (the per-key characterization below), and with a DataSet
loaded it sets a new loaded state whose column list is the previous
column list with, per column, the store's full updated rule list for that
column's key appended to the column's existing validation list — so rules
already merged into a column are appended a second time — re-validates
every row against those extended columns, and notifies exactly once. -/
theorem C1_amended (h : JsHost) (s : Store) (key : String) (rules : List ValidationRule)
    (data : DataSet) (hst : s.state = DataStoreState.loaded data) :
    ((addValidationRules h s key rules).1.options.validationRules
        = newStoredRules s key rules) ∧
    (∀ k2, alGet (newStoredRules s key rules) k2 =
      if k2 = key then some ((alGet s.options.validationRules key).getD [] ++ rules)
      else alGet s.options.validationRules k2) ∧
    (∀ n, (addValidationRules h s key rules).2 = Except.ok n → n = 1) ∧
    (∀ n, (addValidationRules h s key rules).2 = Except.ok n →
      ∃ ds2, (addValidationRules h s key rules).1.state = DataStoreState.loaded ds2 ∧
        ds2.columns.length = data.columns.length ∧
        (∀ i2, i2 < data.columns.length →
          ds2.columns.getD i2 cDflt =
            (match alGet (newStoredRules s key rules) ((data.columns.getD i2 cDflt).key) with
             | none => data.columns.getD i2 cDflt
             | some rs => { data.columns.getD i2 cDflt with
                 validation := some ((data.columns.getD i2 cDflt).validation.getD [] ++ rs) })) ∧
        validateAllRows data.rows ds2.columns h = Except.ok ds2.rows ∧
        ds2.metadata = data.metadata) := by
  refine ⟨?_, ?_, ?_, ?_⟩
  · unfold addValidationRules newStoredRules
    dsimp only
    rw [hst]
    dsimp only
    split <;> rfl
  · intro k2
    unfold newStoredRules
    rw [alGet_alSet]
  · intro n hok
    unfold addValidationRules at hok
    dsimp only at hok
    rw [hst] at hok
    dsimp only at hok
    split at hok
    · cases hok
    · cases hok
      rfl
  · intro n hok
    unfold addValidationRules at hok ⊢
    dsimp only at hok ⊢
    rw [hst] at hok ⊢
    dsimp only at hok ⊢
    cases hv : validateAllRows data.rows
        (applyValidationRules
          (alSet s.options.validationRules key
            ((alGet s.options.validationRules key).getD [] ++ rules))
          data.columns) h with
    | error je =>
      rw [hv] at hok
      cases hok
    | ok rows2 =>
      dsimp only at hok ⊢
      refine ⟨⟨_, rows2, data.metadata⟩, rfl, ?_, ?_, ?_, rfl⟩
      · exact List.length_map _ _
      · intro i2 hi2
        exact applyValidationRules_getD _ data.columns i2 hi2
      · exact hv

/-- C1 witness: the amended theorem instantiated on a concrete loaded
store, yielding the re-validated loaded DataSet. -/
theorem C1_witness :
    sW.state = DataStoreState.loaded dsW ∧
    (∃ ds2, (addValidationRules hW sW "age" [maxRule]).1.state = DataStoreState.loaded ds2 ∧
      validateAllRows dsW.rows ds2.columns hW = Except.ok ds2.rows) := by
  refine ⟨rfl, ?_⟩
  obtain ⟨ds2, h1, _, _, h4, _⟩ :=
    (C1_amended hW sW "age" [maxRule] dsW rfl).2.2.2 1 rfl
  exact ⟨ds2, h1, h4⟩

theorem alKeys_buildCells (record : List (String × Json)) (columns : List Column) :
    alKeys (buildCells record columns) = columns.map Column.key := by
  unfold buildCells alKeys
  rw [List.map_map]
  rfl

theorem mem_alKeys_iff_any {κ α : Type} [DecidableEq κ] (l : List (κ × α)) (k : κ) :
    k ∈ alKeys l ↔ l.any (fun p => p.1 = k) = true := by
  simp only [alKeys, List.mem_map, List.any_eq_true, decide_eq_true_eq]

theorem alKeys_alSet_of_mem {κ α : Type} [DecidableEq κ] (l : List (κ × α)) (k : κ) (v : α)
    (h : k ∈ alKeys l) : alKeys (alSet l k v) = alKeys l := by
  unfold alSet
  rw [if_pos ((mem_alKeys_iff_any l k).mp h)]
  unfold alKeys
  rw [List.map_map]
  apply List.map_congr_left
  intro p _
  by_cases hp : p.1 = k
  · simp [hp]
  · simp [hp]

theorem applyValidationRules_keys (st : List (String × List ValidationRule))
    (cols : List Column) :
    (applyValidationRules st cols).map Column.key = cols.map Column.key := by
  unfold applyValidationRules
  rw [List.map_map]
  apply List.map_congr_left
  intro c _
  simp only [Function.comp_apply]
  cases hx : alGet st c.key <;> rfl

theorem validateAllRows_cells (h : JsHost) (rows : List Row) (cols : List Column)
    (rows2 : List Row) (hv : validateAllRows rows cols h = Except.ok rows2) :
    ∀ r2 ∈ rows2, ∃ r ∈ rows, r2.cells = r.cells := by
  induction rows generalizing rows2 with
  | nil =>
    cases hv
    intro r2 hr2
    cases hr2
  | cons r rest ih =>
    unfold validateAllRows at hv
    cases hm : validateRow r cols h with
    | error je => rw [hm] at hv; cases hv
    | ok m =>
      rw [hm] at hv
      cases ht : validateAllRows rest cols h with
      | error je => rw [ht] at hv; simp at hv
      | ok rest2 =>
        rw [ht] at hv
        simp at hv
        cases hv
        intro r2 hr2
        rcases List.mem_cons.mp hr2 with h1 | h2
        · exact ⟨r, List.mem_cons_self r rest, by rw [h1]⟩
        · obtain ⟨r0, hr0, he⟩ := ih rest2 ht r2 h2
          exact ⟨r0, List.mem_cons_of_mem r hr0, he⟩

theorem getD_mem_of_lt {l : List Row} {i : Nat} (h : i < l.length) (d : Row) :
    l.getD i d ∈ l := by
  rw [List.getD_eq_getElem?_getD, List.getElem?_eq_getElem h]
  exact List.getElem_mem h

theorem newRow_keys_of_inv {cols : List Column} {rows : List Row} {idx : Nat}
    {k : String} {column : Column} {v : CellValue}
    (hinv : ∀ r ∈ rows, alKeys r.cells = cols.map Column.key)
    (hcol : cols.find? (fun c => c.key == k) = some column)
    (hlt : idx < rows.length) :
    alKeys (alSet (rows.getD idx ⟨"", [], []⟩).cells k v) = cols.map Column.key := by
  have hrow : rows.getD idx ⟨"", [], []⟩ ∈ rows := getD_mem_of_lt hlt _
  have hkeys := hinv _ hrow
  have hkeq : column.key = k := by
    have h1 := List.find?_some hcol
    simp only [beq_iff_eq] at h1
    exact h1
  have hmemk : k ∈ cols.map Column.key :=
    List.mem_map.mpr ⟨column, List.mem_of_find?_eq_some hcol, hkeq⟩
  rw [alKeys_alSet_of_mem _ k v (by rw [hkeys]; exact hmemk)]
  exact hkeys

theorem set_preserves_inv {cols : List Column} {rows : List Row} {idx : Nat}
    {newRow : Row}
    (hinv : ∀ r ∈ rows, alKeys r.cells = cols.map Column.key)
    (hnew : idx < rows.length → alKeys newRow.cells = cols.map Column.key) :
    ∀ r ∈ rows.set idx newRow, alKeys r.cells = cols.map Column.key := by
  by_cases hlt : idx < rows.length
  · intro r hr
    rcases List.mem_or_eq_of_mem_set hr with hmem | heq
    · exact hinv r hmem
    · rw [heq]
      exact hnew hlt
  · rw [List.set_eq_of_length_le (by omega)]
    exact hinv

theorem batchApplyEdits_inv (h : JsHost) (cols : List Column)
    (idxMap : List (String × Nat)) (edits : List CellEdit) :
    ∀ rows rows2, (∀ r ∈ rows, alKeys r.cells = cols.map Column.key) →
      batchApplyEdits h cols idxMap edits rows = Except.ok rows2 →
      ∀ r ∈ rows2, alKeys r.cells = cols.map Column.key := by
  induction edits with
  | nil =>
    intro rows rows2 hinv hb
    cases hb
    exact hinv
  | cons e rest ih =>
    intro rows rows2 hinv hb
    unfold batchApplyEdits at hb
    dsimp only at hb
    split at hb
    · exact ih rows rows2 hinv hb
    · split at hb
      · exact ih rows rows2 hinv hb
      · rename_i idx _ column hcol
        split at hb
        · cases hb
        · rename_i cellErrors hcell
          refine ih _ rows2 ?_ hb
          apply set_preserves_inv hinv
          intro hlt
          exact newRow_keys_of_inv hinv hcol hlt

/-- C9: every Row's cells mapping has exactly the owning DataSet's column
key list — one entry per column, no missing and no extra keys (fields
outside the first record's key set are dropped, missing fields yield
null): established by parse, whose buildCells iterates the columns, and
preserved by updateCell, batchUpdateCells and addValidationRules. -/
theorem C9_theorem :
    (∀ input opts seed ts now ds, parse input opts seed ts now = Except.ok ds →
      cellsMatchColumns ds) ∧
    (∀ h s rid k v data data2, s.state = DataStoreState.loaded data →
      cellsMatchColumns data →
      ((updateCell h s rid k v).1).state = DataStoreState.loaded data2 →
      cellsMatchColumns data2) ∧
    (∀ h s edits data data2, s.state = DataStoreState.loaded data →
      cellsMatchColumns data →
      ((batchUpdateCells h s edits).1).state = DataStoreState.loaded data2 →
      cellsMatchColumns data2) ∧
    (∀ h s key rules data data2, s.state = DataStoreState.loaded data →
      cellsMatchColumns data →
      ((addValidationRules h s key rules).1).state = DataStoreState.loaded data2 →
      cellsMatchColumns data2) := by
  refine ⟨?_, ?_, ?_, ?_⟩
  · intro input opts seed ts now ds hp
    unfold parse at hp
    dsimp only at hp
    split at hp
    · cases hp
    · split at hp
      · cases hp
      · split at hp
        · cases hp
        · rename_i records hjson
          split at hp
          · cases hp
          · cases hc : checkRecords opts.maxNestingDepth 0 records with
            | error e =>
              rw [hc] at hp
              simp only [exceptBind_error] at hp
              cases hp
            | ok u =>
              cases u
              rw [hc] at hp
              simp only [exceptBind_ok] at hp
              split at hp
              · cases hp
              · cases hp
                intro r hr
                simp only [List.mem_map] at hr
                obtain ⟨p, _, hpe⟩ := hr
                rw [← hpe]
                dsimp only
                rw [alKeys_buildCells]
        · cases hp
  · intro h s rid k v data data2 hst hinv h2
    unfold updateCell at h2
    rw [hst] at h2
    dsimp only at h2
    split at h2
    · rw [hst] at h2
      cases h2
      exact hinv
    · split at h2
      · rw [hst] at h2
        cases h2
        exact hinv
      · rename_i idx _ column hcol
        split at h2
        · rw [hst] at h2
          cases h2
          exact hinv
        · rename_i cellErrors hcell
          dsimp only at h2
          cases h2
          intro r hr
          apply set_preserves_inv hinv ?_ r hr
          intro hlt
          exact newRow_keys_of_inv hinv hcol hlt
  · intro h s edits data data2 hst hinv h2
    unfold batchUpdateCells at h2
    rw [hst] at h2
    dsimp only at h2
    split at h2
    · rw [hst] at h2
      cases h2
      exact hinv
    · rename_i rows2 hb
      dsimp only at h2
      cases h2
      exact batchApplyEdits_inv h data.columns _ edits data.rows rows2 hinv hb
  · intro h s key rules data data2 hst hinv h2
    unfold addValidationRules at h2
    dsimp only at h2
    rw [hst] at h2
    dsimp only at h2
    split at h2
    · dsimp only at h2
      cases h2
      exact hinv
    · rename_i rows2 hv
      dsimp only at h2
      cases h2
      intro r2 hr2
      dsimp only
      rw [applyValidationRules_keys]
      obtain ⟨r, hr, he⟩ := validateAllRows_cells h data.rows _ rows2 hv r2 hr2
      rw [he]
      exact hinv r hr

/-- C9 witness: the invariant evaluated on the concretely parsed DataSet. -/
theorem C9_witness :
    parse jsonSimple defaultParseOptions 0 "t" "now" = Except.ok dsP ∧
    alKeys ((dsP.rows.getD 0 rowDflt).cells) = dsP.columns.map Column.key :=
  ⟨rfl,
   C9_theorem.1 jsonSimple defaultParseOptions 0 "t" "now" dsP rfl
     (dsP.rows.getD 0 rowDflt) (by decide)⟩

theorem findIdx?_bound {α : Type} (p : α → Bool) :
    ∀ (l : List α) (s i : Nat), List.findIdx? p l s = some i → i < s + l.length := by
  intro l
  induction l with
  | nil => intro s i h; cases h
  | cons a t ih =>
    intro s i h
    rw [List.findIdx?] at h
    split at h
    · cases h
      simp
    · have := ih (s + 1) i h
      simp only [List.length_cons]
      omega

theorem findIdx?_lt_length {α : Type} {p : α → Bool} {l : List α} {i : Nat}
    (h : l.findIdx? p = some i) : i < l.length := by
  have := findIdx?_bound p l 0 i h
  omega

theorem getD_set_eq_of_lt {α : Type} (l : List α) (i : Nat) (a d : α)
    (h : i < l.length) : (l.set i a).getD i d = a := by
  rw [List.getD_eq_getElem?_getD, List.getElem?_set_eq_of_lt a h]
  rfl

theorem getD_set_ne {α : Type} (l : List α) (i j : Nat) (a d : α)
    (h : j ≠ i) : (l.set i a).getD j d = l.getD j d := by
  rw [List.getD_eq_getElem?_getD, List.getElem?_set_ne (fun he => h he.symm),
    ← List.getD_eq_getElem?_getD]

/-- C8: in the allocation model, updateCell on an existing row and column
gives the rows array and the updated row object fresh addresses (never
seen in the pre-edit DataSet), leaves every other row slot exactly as it
was (same address, same row value), and carries the columns array and
the metadata over with unchanged addresses and contents; the allocation
invariant is maintained. -/
theorem C8_theorem (h : JsHost) (data : ADataSet) (next : Nat)
    (rowId columnKey : String) (value : CellValue) (idx : Nat)
    (data2 : ADataSet) (next2 : Nat)
    (hwf : allocWF data next)
    (hidx : data.rows.findIdx? (fun r => r.2.id == rowId) = some idx)
    (hok : updateCellAlloc h data next rowId columnKey value
      = some (Except.ok (data2, next2))) :
    (data2.rowsAddr ∉ allocAddrs data) ∧
    idx < data.rows.length ∧
    ((data2.rows.getD idx (0, rowDflt)).1 ∉ allocAddrs data) ∧
    (∀ j, j ≠ idx → data2.rows.getD j (0, rowDflt) = data.rows.getD j (0, rowDflt)) ∧
    data2.columnsAddr = data.columnsAddr ∧ data2.columns = data.columns ∧
    data2.metaAddr = data.metaAddr ∧ data2.metadata = data.metadata ∧
    allocWF data2 next2 := by
  have hlt : idx < data.rows.length := findIdx?_lt_length hidx
  unfold updateCellAlloc at hok
  rw [hidx] at hok
  dsimp only at hok
  split at hok
  · cases hok
  · rename_i column hcol
    split at hok
    · cases hok
    · rename_i cellErrors hcell
      cases hok
      refine ⟨?_, hlt, ?_, ?_, rfl, rfl, rfl, rfl, ?_⟩
      · intro hmem
        have := hwf _ hmem
        simp at this
      · rw [getD_set_eq_of_lt _ _ _ _ hlt]
        intro hmem
        have := hwf _ hmem
        simp at this
      · intro j hj
        exact getD_set_ne _ _ _ _ _ hj
      · intro a ha
        simp only [allocAddrs, List.mem_cons] at ha
        rcases ha with h1 | h1 | h1 | h1
        · have := hwf data.columnsAddr (by simp [allocAddrs])
          omega
        · omega
        · have := hwf data.metaAddr (by simp [allocAddrs])
          omega
        · simp only [List.mem_map] at h1
          obtain ⟨r, hr, hre⟩ := h1
          rcases List.mem_or_eq_of_mem_set hr with hmem | heq
          · have := hwf r.1 (by
              simp only [allocAddrs, List.mem_cons]
              right; right; right
              exact List.mem_map.mpr ⟨r, hmem, rfl⟩)
            omega
          · rw [heq] at hre
            simp at hre
            omega

/-- C8 witness: the theorem instantiated on a concrete one-row DataSet
with addresses 10, 11, 12, 20 and allocation counter 21. -/
theorem C8_witness :
    allocWF aDataW 21 ∧
    updateCellAlloc hW aDataW 21 "r0" "age" (CellValue.num 5)
      = some (Except.ok (aUpdW, 23)) ∧
    aUpdW.rowsAddr ∉ allocAddrs aDataW ∧
    aUpdW.columnsAddr = aDataW.columnsAddr ∧
    aUpdW.metadata = aDataW.metadata := by
  have hwfW : allocWF aDataW 21 := by
    unfold allocWF
    decide
  have hres := C8_theorem hW aDataW 21 "r0" "age" (CellValue.num 5) 0 aUpdW 23
    hwfW rfl rfl
  exact ⟨hwfW, rfl, hres.1, hres.2.2.2.2.1, hres.2.2.2.2.2.2.2.1⟩

end DV
